import Mathlib

/-!
Verification development for the snow-monitor data pipeline
(`src/fetch-data.js`).  The JavaScript source is shallowly embedded:
strings are lists of characters (`Str`), JavaScript objects used as
key-value maps are association lists in insertion order, fallible
fetches are `Except` values, numbers are `Nat`/`ℚ`.  Regular-expression
matching is embedded by hand-rolled scanners that reproduce the
left-most match semantics of the concrete patterns appearing in the
source.
-/

namespace SnowMonitor

/-- Strings are modelled as lists of characters. -/
abbrev Str := List Char

/-- The whitespace class used by the source's `\s` patterns (the common
ASCII whitespace characters that occur in the scraped text). -/
def isWsChar (c : Char) : Bool := c = ' ' || c = '\t' || c = '\n' || c = '\r'

/-- Decimal digit, the `\d` class. -/
def isDigitChar (c : Char) : Bool := decide (48 ≤ c.toNat ∧ c.toNat ≤ 57)

/-- ASCII upper-casing, as performed by JavaScript `toUpperCase` on the
ASCII names occurring in this pipeline (code points 97–122 map down by 32). -/
def upChar (c : Char) : Char :=
  if 97 ≤ c.toNat ∧ c.toNat ≤ 122 then Char.ofNat (c.toNat - 32) else c

/-- `.replace(/\s+/g, ' ')`: every maximal run of whitespace becomes one
space.  Written with a two-character lookahead so that the recursion is
structural (the single space is emitted at the end of each run). -/
def collapse : Str → Str
  | [] => []
  | [c] => if isWsChar c then [' '] else [c]
  | c :: d :: t =>
    if isWsChar c then
      if isWsChar d then collapse (d :: t) else ' ' :: collapse (d :: t)
    else c :: collapse (d :: t)

/-- `.trim()`: remove leading and trailing whitespace. -/
def trimWs (s : Str) : Str :=
  ((s.dropWhile isWsChar).reverse.dropWhile isWsChar).reverse

/-- Scan for the first `>` of a tag body; `some rest` returns the text
after the closing `>`. -/
def findTagTail : Str → Option Str
  | [] => none
  | c :: t => if c = '>' then some t else findTagTail t

/-- `<[^>]+>` matched at a position just after `<`: at least one
non-`>` character followed by `>`. -/
def findTag : Str → Option Str
  | [] => none
  | c :: t => if c = '>' then none else findTagTail t

/-- `.replace(/<[^>]+>/g, ' ')` with explicit fuel so that the
definition evaluates by `decide`; `stripTags` instantiates the fuel with
the length of the string, which always suffices. -/
def stripTagsFuel : Nat → Str → Str
  | 0, s => s
  | _ + 1, [] => []
  | fuel + 1, c :: t =>
    if c = '<' then
      match findTag t with
      | some rest => ' ' :: stripTagsFuel fuel rest
      | none => c :: stripTagsFuel fuel t
    else c :: stripTagsFuel fuel t

/-- `.replace(/<[^>]+>/g, ' ')`: every HTML tag becomes one space;
an unclosed `<` is kept verbatim, as the regex finds no match there. -/
def stripTags (s : Str) : Str := stripTagsFuel s.length s

/-- Case-insensitive string equality as used by a literal inside an
`/i` regex: consume the literal `pat` from the front of `s`, returning
the remainder. -/
def dropLitCI : Str → Str → Option Str
  | [], s => some s
  | _ :: _, [] => none
  | c :: p, d :: s => if upChar c = upChar d then dropLitCI p s else none

/-- `parseInt` on a string of decimal digits. -/
def digitsToNat (s : Str) : Nat :=
  s.foldl (fun n c => n * 10 + (c.toNat - 48)) 0

/-- Decimal rendering of a natural number (template-literal `${n}`). -/
def natStr (n : Nat) : Str := (Nat.repr n).data

/-- `.padStart(2, '0')`. -/
def pad2 (s : Str) : Str := List.replicate (2 - s.length) '0' ++ s

/-! ## Entity matcher (`matchLiftHours`, src/fetch-data.js lines 110–126) -/

/-- A schedule entry `{open, close}` (source field names `open`/`close`;
`open` is a Lean keyword, hence `openT`/`closeT`). -/
structure TimePair where
  openT : Str
  closeT : Str
deriving DecidableEq, Repr, Inhabited

/-- The `hours` object: a JavaScript object with string keys, modelled
as an association list in insertion order with unique keys. -/
abbrev HoursMap := List (Str × TimePair)

/-- Property lookup `hours[name]`. -/
def lookupKey (h : HoursMap) (k : Str) : Option TimePair :=
  match h with
  | [] => none
  | (key, v) :: t => if key = k then some v else lookupKey t k

/-- Does `s` start with `pat` (exact characters)? -/
def startsWithS : Str → Str → Bool
  | [], _ => true
  | _ :: _, [] => false
  | c :: p, d :: s => c = d && startsWithS p s

/-- Substring test `a.includes(b)`. -/
def strIncludes (a b : Str) : Bool :=
  match a with
  | [] => b.isEmpty
  | _ :: t => startsWithS b a || strIncludes t b

/-- The containment loop: `name === key || name.includes(key) ||
key.includes(name)`, first hit wins (iteration in insertion order). -/
def containLoop (name : Str) (h : HoursMap) : Option TimePair :=
  match h with
  | [] => none
  | (key, v) :: t =>
    if name = key || strIncludes name key || strIncludes key name then some v
    else containLoop name t

/-- `split(/[\s\-]+/)` delimiter class. -/
def isDelimChar (c : Char) : Bool := isWsChar c || c = '-'

/-- Maximal runs of non-delimiter characters.  JavaScript `split` also
produces empty segments at the string's edges, but the source
immediately filters by `length > 2`, which removes them, so the two
formulations agree after the filter. -/
def splitRuns : Str → List Str
  | [] => []
  | c :: t =>
    if isDelimChar c then splitRuns t
    else
      match t with
      | [] => [[c]]
      | d :: _ =>
        if isDelimChar d then [c] :: splitRuns t
        else
          match splitRuns t with
          | [] => [[c]]
          | w :: ws => (c :: w) :: ws

/-- `x.split(/[\s\-]+/).filter(w => w.length > 2)`. -/
def words (s : Str) : List Str := (splitRuns s).filter (fun w => 2 < w.length)

/-- `nameWords.filter(w => keyWords.includes(w)).length`. -/
def overlapCount (nameWords keyWords : List Str) : Nat :=
  (nameWords.filter (fun w => decide (w ∈ keyWords))).length

/-- One step of the word-overlap loop: keep the candidate only on a
strictly larger overlap (`overlap > bestScore`), so the first candidate
reaching the maximum is retained. -/
def overlapStep (nameWords : List Str) (acc : Option TimePair × Nat)
    (kv : Str × TimePair) : Option TimePair × Nat :=
  let overlap := overlapCount nameWords (words kv.1)
  if acc.2 < overlap then (some kv.2, overlap) else acc

/-- The word-overlap loop over all schedule entries. -/
def bestOverlap (nameWords : List Str) (h : HoursMap) : Option TimePair × Nat :=
  h.foldl (overlapStep nameWords) (none, 0)

/-- `liftName.toUpperCase().replace(/\s+/g, ' ')`. -/
def normName (s : Str) : Str := collapse (s.map upChar)

/-- `matchLiftHours(liftName, hours)` (src/fetch-data.js lines 110–126):
normalize, exact lookup, containment loop, then word overlap accepted
only with score `>= 2`. -/
def matchLiftHours (liftName : Str) (hours : HoursMap) : Option TimePair :=
  let name := normName liftName
  match lookupKey hours name with
  | some v => some v
  | none =>
    match containLoop name hours with
    | some v => some v
    | none =>
      let bs := bestOverlap (words name) hours
      if 2 ≤ bs.2 then bs.1 else none

/-! ## Generic first-match scanning

A regex with no anchor matches at the left-most position where the
pattern succeeds; `firstScan` tries its pattern at every suffix from
the left. -/

/-- Left-most match: try `p` at every suffix, left to right. -/
def firstScan {α : Type} (p : Str → Option α) : Str → Option α
  | [] => p []
  | c :: t =>
    match p (c :: t) with
    | some r => some r
    | none => firstScan p t

/-- `\s+`: at least one whitespace character, consumed greedily. -/
def ws1 (s : Str) : Option Str :=
  match s with
  | [] => none
  | c :: t => if isWsChar c then some (t.dropWhile isWsChar) else none

/-! ## Text extractor (`fetchLiftPisteData`, src/fetch-data.js lines 44–75) -/

/-- `/(Lifts|Runs)\s*Open\s*(\d+)\s*\/\s*(\d+)/i` matched at the start
of `s` for the keyword `kw`; returns the two captured digit strings. -/
def occAt (kw : Str) (s : Str) : Option (Str × Str) :=
  match dropLitCI kw s with
  | none => none
  | some s1 =>
    match dropLitCI "Open".data (s1.dropWhile isWsChar) with
    | none => none
    | some s2 =>
      let s3 := s2.dropWhile isWsChar
      let d1 := s3.takeWhile isDigitChar
      if d1 = [] then none
      else
        match (s3.dropWhile isDigitChar).dropWhile isWsChar with
        | '/' :: s5 =>
          let s6 := s5.dropWhile isWsChar
          let d2 := s6.takeWhile isDigitChar
          if d2 = [] then none else some (d1, d2)
        | _ => none

/-- `/(\d+)\s*km\s*open/i` matched at the start of `s`. -/
def kmAt (s : Str) : Option Str :=
  let d := s.takeWhile isDigitChar
  if d = [] then none
  else
    match dropLitCI "km".data ((s.dropWhile isDigitChar).dropWhile isWsChar) with
    | none => none
    | some r =>
      match dropLitCI "open".data (r.dropWhile isWsChar) with
      | some _ => some d
      | none => none

/-- `/(Base|Summit)\s*(\d+)\s*cm/i` matched at the start of `s` for the
keyword `kw`. -/
def depthAt (kw : Str) (s : Str) : Option Str :=
  match dropLitCI kw s with
  | none => none
  | some s1 =>
    let s2 := s1.dropWhile isWsChar
    let d := s2.takeWhile isDigitChar
    if d = [] then none
    else
      match dropLitCI "cm".data ((s2.dropWhile isDigitChar).dropWhile isWsChar) with
      | some _ => some d
      | none => none

/-- The condition vocabulary, in the source's alternation order. -/
def condLits : List Str :=
  ["Machine Groomed".data, "Powder".data, "Packed Powder".data,
   "Spring Conditions".data, "Hard Pack".data, "Icy".data,
   "Variable".data, "Frozen Granular".data]

/-- Try each condition literal in order; the capture is the text as it
appears in the document (case preserved), like the regex group. -/
def tryConds : List Str → Str → Option Str
  | [], _ => none
  | lit :: rest, s =>
    if (dropLitCI lit s).isSome then some (s.take lit.length) else tryConds rest s

/-- `/(?:Base|Summit)\s*\d+\s*cm\s*(Machine Groomed|…)/i` matched at
the start of `s`. -/
def condAt (s : Str) : Option Str :=
  let afterKw :=
    match dropLitCI "Base".data s with
    | some r => some r
    | none => dropLitCI "Summit".data s
  match afterKw with
  | none => none
  | some s1 =>
    let s2 := s1.dropWhile isWsChar
    let d := s2.takeWhile isDigitChar
    if d = [] then none
    else
      match dropLitCI "cm".data ((s2.dropWhile isDigitChar).dropWhile isWsChar) with
      | none => none
      | some s3 => tryConds condLits (s3.dropWhile isWsChar)

/-- The `result` record of `fetchLiftPisteData`; every field starts as
`null` and is only set when its pattern matches. -/
structure LiftStats where
  liftsOpen : Option Nat
  liftsTotal : Option Nat
  runsOpen : Option Nat
  runsTotal : Option Nat
  kmOpen : Option Nat
  baseDepth : Option Nat
  summitDepth : Option Nat
  condition : Option Str
  deriving DecidableEq, Repr

/-- The all-`null` initial record. -/
def emptyStats : LiftStats := ⟨none, none, none, none, none, none, none, none⟩

/-- `m = text.match(liftsRe); if (m) { … }`. -/
def applyLifts (text : Str) (r : LiftStats) : LiftStats :=
  match firstScan (occAt "Lifts".data) text with
  | some (a, b) => { r with liftsOpen := some (digitsToNat a), liftsTotal := some (digitsToNat b) }
  | none => r

/-- `m = text.match(runsRe); if (m) { … }`. -/
def applyRuns (text : Str) (r : LiftStats) : LiftStats :=
  match firstScan (occAt "Runs".data) text with
  | some (a, b) => { r with runsOpen := some (digitsToNat a), runsTotal := some (digitsToNat b) }
  | none => r

/-- `m = text.match(kmRe); if (m) { … }`. -/
def applyKm (text : Str) (r : LiftStats) : LiftStats :=
  match firstScan kmAt text with
  | some d => { r with kmOpen := some (digitsToNat d) }
  | none => r

/-- `m = text.match(baseRe); if (m) { … }`. -/
def applyBase (text : Str) (r : LiftStats) : LiftStats :=
  match firstScan (depthAt "Base".data) text with
  | some d => { r with baseDepth := some (digitsToNat d) }
  | none => r

/-- `m = text.match(summitRe); if (m) { … }`. -/
def applySummit (text : Str) (r : LiftStats) : LiftStats :=
  match firstScan (depthAt "Summit".data) text with
  | some d => { r with summitDepth := some (digitsToNat d) }
  | none => r

/-- `m = text.match(condRe); if (m) { … }`. -/
def applyCond (text : Str) (r : LiftStats) : LiftStats :=
  match firstScan condAt text with
  | some c => { r with condition := some c }
  | none => r

/-- The parsing part of `fetchLiftPisteData`: strip tags, collapse
whitespace, then run the six patterns in the source's order. -/
def extractStats (html : Str) : LiftStats :=
  let text := collapse (stripTags html)
  applyCond text (applySummit text (applyBase text
    (applyKm text (applyRuns text (applyLifts text emptyStats)))))

/-- `fetchLiftPisteData` seen from its fetch result: a failed fetch is
caught and the all-`null` record returned. -/
def fetchLiftPisteDataE (r : Except Str Str) : LiftStats :=
  match r with
  | Except.error _ => emptyStats
  | Except.ok html => extractStats html

/-! ## Schedule extractor (`fetchLiftSchedule`, src/fetch-data.js lines 77–108)

The `blockRe` loop pairs each `<p>…</p>` with the following
`<ul>…</ul>`; a schedule page is modelled as the list of these
`(p-inner-HTML, ul-inner-HTML)` pairs. -/

/-- One simple alternative of `liftTypeRe`: the literal followed by `\s+`. -/
def altTry (alt : Str) (s : Str) : Option Str :=
  match dropLitCI alt s with
  | some r => ws1 r
  | none => none

/-- The tail of the `Tapis(?:\s+Roulant?)?\s+` alternative after the
literal `Tapis`, with the regex's backtracking out of the optional
group when the trailing `\s+` cannot match. -/
def tapisTail (s : Str) : Option Str :=
  match ws1 s with
  | none => none
  | some s1 =>
    match dropLitCI "Roulan".data s1 with
    | none => some s1
    | some s2 =>
      match s2 with
      | [] => some s1
      | c :: s3 =>
        if upChar c = upChar 't' then
          match ws1 s3 with
          | some r => some r
          | none =>
            match ws1 s2 with
            | some r => some r
            | none => some s1
        else
          match ws1 s2 with
          | some r => some r
          | none => some s1

/-- `liftTypeRe = /^(?:Gondola|Chairlift|Funicular|Funifor|Cableway|Tapis(?:\s+Roulant?)?)\s+/i`:
returns the remainder after the matched lift-type marker. -/
def liftTypeAt (s : Str) : Option Str :=
  match altTry "Gondola".data s with
  | some r => some r
  | none =>
  match altTry "Chairlift".data s with
  | some r => some r
  | none =>
  match altTry "Funicular".data s with
  | some r => some r
  | none =>
  match altTry "Funifor".data s with
  | some r => some r
  | none =>
  match altTry "Cableway".data s with
  | some r => some r
  | none =>
  match dropLitCI "Tapis".data s with
  | some r => tapisTail r
  | none => none

/-- `.replace(liftTypeRe, '')`. -/
def dropLiftType (s : Str) : Str :=
  match liftTypeAt s with
  | some r => r
  | none => s

/-- The `[\d,\-\s]` class of the parenthetical pattern. -/
def parenContentChar (c : Char) : Bool :=
  isDigitChar c || c = ',' || c = '-' || isWsChar c

/-- Does `/\s*\([\d,\-\s]+\).*/` match starting at this position? -/
def parenGateAt (s : Str) : Bool :=
  match s.dropWhile isWsChar with
  | c :: rest =>
    if c = '(' then
      match rest.dropWhile parenContentChar with
      | d :: _ => decide (rest.takeWhile parenContentChar ≠ []) && d = ')'
      | [] => false
    else false
  | [] => false

/-- `.replace(/\s*\([\d,\-\s]+\).*/, '')`: everything from the first
matching parenthetical to the end of the string is removed. -/
def cutParen : Str → Str
  | [] => []
  | c :: t => if parenGateAt (c :: t) then [] else c :: cutParen t

/-- `pText.replace(liftTypeRe, '').replace(/\s*\([\d,\-\s]+\).*/, '').trim().toUpperCase()`. -/
def canonName (pText : Str) : Str :=
  (trimWs (cutParen (dropLiftType pText))).map upChar

/-- `timeRe = /(\d+)[.:](\d+)\s*[–\-]\s*(\d+)[.:](\d+)/` matched at the
start of `s`: the four captured numbers, already `parseInt`ed. -/
def timeAt (s : Str) : Option (Nat × Nat × Nat × Nat) :=
  let d1 := s.takeWhile isDigitChar
  if d1 = [] then none
  else
    match s.dropWhile isDigitChar with
    | [] => none
    | c :: s1 =>
      if c = '.' || c = ':' then
        let d2 := s1.takeWhile isDigitChar
        if d2 = [] then none
        else
          match (s1.dropWhile isDigitChar).dropWhile isWsChar with
          | [] => none
          | e :: s3 =>
            if e = '–' || e = '-' then
              let s4 := s3.dropWhile isWsChar
              let d3 := s4.takeWhile isDigitChar
              if d3 = [] then none
              else
                match s4.dropWhile isDigitChar with
                | [] => none
                | f :: s5 =>
                  if f = '.' || f = ':' then
                    let d4 := s5.takeWhile isDigitChar
                    if d4 = [] then none
                    else some (digitsToNat d1, digitsToNat d2, digitsToNat d3, digitsToNat d4)
                  else none
            else none
      else none

/-- `${oH}:${oM.toString().padStart(2,'0')}`. -/
def fmtClock (h m : Nat) : Str := natStr h ++ ':' :: pad2 (natStr m)

/-- `toTime = mins => …`: minutes of the day back to `H:MM`. -/
def toTime (mins : Nat) : Str := natStr (mins / 60) ++ ':' :: pad2 (natStr (mins % 60))

/-- One block of the schedule page after gate checks and parsing. -/
structure ParsedBlock where
  name : Str
  oH : Nat
  oM : Nat
  cH : Nat
  cM : Nat
  deriving DecidableEq, Repr

/-- The per-block part of the `blockRe` loop body: tag-strip and
collapse both texts, require the lift-type marker, parse the first time
range of the list text, canonicalize the name. -/
def parseBlock (blk : Str × Str) : Option ParsedBlock :=
  let pText := trimWs (collapse (stripTags blk.1))
  let ulText := trimWs (collapse (stripTags blk.2))
  if (liftTypeAt pText).isSome then
    match firstScan timeAt ulText with
    | some (oH, oM, cH, cM) => some ⟨canonName pText, oH, oM, cH, cM⟩
    | none => none
  else none

/-- Open minute-of-day of a parsed block (`oH * 60 + oM`). -/
def openMins (b : ParsedBlock) : Nat := b.oH * 60 + b.oM

/-- Close minute-of-day of a parsed block (`cH * 60 + cM`). -/
def closeMins (b : ParsedBlock) : Nat := b.cH * 60 + b.cM

/-- The hours-map entry written for a parsed block. -/
def entryOf (b : ParsedBlock) : Str × TimePair :=
  (b.name, ⟨fmtClock b.oH b.oM, fmtClock b.cH b.cM⟩)

/-- JavaScript object assignment `hours[name] = v`: overwrite the value
if the key exists (keeping its position), else append. -/
def insertKV (m : HoursMap) (k : Str) (v : TimePair) : HoursMap :=
  match m with
  | [] => [(k, v)]
  | (k', v') :: t => if k' = k then (k', v) :: t else (k', v') :: insertKV t k v

/-- The result of `fetchLiftSchedule`. -/
structure Schedule where
  hours : HoursMap
  generalOpen : Option Str
  generalClose : Option Str
  deriving DecidableEq, Repr

/-- The loop body of `fetchLiftSchedule`: store the entry and update
the running earliest open / latest close. -/
def schedStep (acc : HoursMap × Option Nat × Option Nat) (blk : Str × Str) :
    HoursMap × Option Nat × Option Nat :=
  match parseBlock blk with
  | none => acc
  | some b =>
    (insertKV acc.1 b.name (entryOf b).2,
     some (match acc.2.1 with | none => openMins b | some e => if openMins b < e then openMins b else e),
     some (match acc.2.2 with | none => closeMins b | some l => if l < closeMins b then closeMins b else l))

/-- `fetchLiftSchedule` on the block list of a successfully fetched
schedule page. -/
def fetchLiftSchedule (blocks : List (Str × Str)) : Schedule :=
  let r := blocks.foldl schedStep ([], none, none)
  ⟨r.1, r.2.1.map toTime, r.2.2.map toTime⟩

/-- `fetchLiftSchedule` seen from its fetch result: failures are caught
and give the empty schedule. -/
def fetchLiftScheduleE (r : Except Str (List (Str × Str))) : Schedule :=
  match r with
  | Except.error _ => ⟨[], none, none⟩
  | Except.ok blocks => fetchLiftSchedule blocks

/-! ## Snowfall window sums (`generateHTML`, src/fetch-data.js lines 242–258)

Dates are modelled as day numbers: the source compares ISO `yyyy-mm-dd`
strings lexicographically, which on this fixed format coincides with
chronological order.  Daily amounts are `Option ℚ` (`null`/missing vs. a
number). -/

/-- `(snows[i] || 0)`: a missing or `null` entry counts as `0`. -/
def dailyVal (snows : List (Option ℚ)) (i : Nat) : ℚ :=
  match snows.getD i none with
  | none => 0
  | some x => x

/-- The `fresh3` loop: sum over indices whose date is strictly before
today. -/
def snowFresh (times : List Nat) (snows : List (Option ℚ)) (today : Nat) : ℚ :=
  (List.range times.length).foldl
    (fun acc i => if times.getD i 0 < today then acc + dailyVal snows i else acc) 0

/-- The `next3`/`next7` loop: state `(next3, next7, futureCount)`;
every on-or-after-today index adds to `next7`, and the first three of
them also add to `next3`. -/
def snowNext (times : List Nat) (snows : List (Option ℚ)) (today : Nat) : ℚ × ℚ × Nat :=
  (List.range times.length).foldl
    (fun acc i =>
      if today ≤ times.getD i 0 then
        (if acc.2.2 < 3 then acc.1 + dailyVal snows i else acc.1,
         acc.2.1 + dailyVal snows i, acc.2.2 + 1)
      else acc)
    (0, 0, 0)

/-- The three sums rendered as `Fresh (3d)`, `Next 3d`, `Next 7d`. -/
def snowWindows (times : List Nat) (snows : List (Option ℚ)) (today : Nat) : ℚ × ℚ × ℚ :=
  (snowFresh times snows today, (snowNext times snows today).1, (snowNext times snows today).2.1)

/-- Modelled from the spec: the sum of the amounts on dates strictly
before today. -/
def specPastSum (times : List Nat) (snows : List (Option ℚ)) (today : Nat) : ℚ :=
  (((List.range times.length).filter (fun i => times.getD i 0 < today)).map
    (dailyVal snows)).sum

/-- Indices on or after today, in series order. -/
def futureIdx (times : List Nat) (today : Nat) : List Nat :=
  (List.range times.length).filter (fun i => today ≤ times.getD i 0)

/-- The sum of the first three amounts on dates on or after today. -/
def firstThreeSum (times : List Nat) (snows : List (Option ℚ)) (today : Nat) : ℚ :=
  (((futureIdx times today).take 3).map (dailyVal snows)).sum

/-- The sum of all amounts on dates on or after today. -/
def allFutureSum (times : List Nat) (snows : List (Option ℚ)) (today : Nat) : ℚ :=
  ((futureIdx times today).map (dailyVal snows)).sum

/-- Modelled from the spec: the sum over the calendar window
`today … today+2` ("today and the next 2 days"). -/
def claimNearSum (times : List Nat) (snows : List (Option ℚ)) (today : Nat) : ℚ :=
  (((List.range times.length).filter
      (fun i => today ≤ times.getD i 0 ∧ times.getD i 0 ≤ today + 2)).map
    (dailyVal snows)).sum

/-- Modelled from the spec: the sum over the calendar window
`today … today+6` ("today through the next 6 days"). -/
def claimExtSum (times : List Nat) (snows : List (Option ℚ)) (today : Nat) : ℚ :=
  (((List.range times.length).filter
      (fun i => today ≤ times.getD i 0 ∧ times.getD i 0 ≤ today + 6)).map
    (dailyVal snows)).sum

/-! ## Avalanche aggregation (`fetchAvalancheData`, src/fetch-data.js lines 406–440) -/

/-- One sub-region danger rating of the CAAML bulletin. -/
structure DangerRating where
  mainValue : Str
  deriving DecidableEq, Repr

/-- One bulletin, with its danger ratings and validity window. -/
structure Bulletin where
  dangerRatings : List DangerRating
  validTime : Option (Str × Str)
  deriving DecidableEq, Repr

/-- The parsed bulletin document (`data.bulletins`). -/
structure BulletinDoc where
  bulletins : List Bulletin
  deriving DecidableEq, Repr

/-- `dangerMap = { low: 1, moderate: 2, considerable: 3, high: 4, very_high: 5 }`. -/
def dangerMapF (s : Str) : Option Nat :=
  if s = "low".data then some 1
  else if s = "moderate".data then some 2
  else if s = "considerable".data then some 3
  else if s = "high".data then some 4
  else if s = "very_high".data then some 5
  else none

/-- `labelMap = { 1: 'Low', … }`. -/
def labelMapF (n : Nat) : Option Str :=
  if n = 1 then some "Low".data
  else if n = 2 then some "Moderate".data
  else if n = 3 then some "Considerable".data
  else if n = 4 then some "High".data
  else if n = 5 then some "Very High".data
  else none

/-- `colorMap = { 1: '#4CAF50', … }`. -/
def colorMapF (n : Nat) : Option Str :=
  if n = 1 then some "#4CAF50".data
  else if n = 2 then some "#FFEB3B".data
  else if n = 3 then some "#FF9800".data
  else if n = 4 then some "#F44336".data
  else if n = 5 then some "#000".data
  else none

/-- `dangerMap[r.mainValue] || 1`. -/
def ratingLevel (r : DangerRating) : Nat := (dangerMapF r.mainValue).getD 1

/-- The nested maximum loop: `maxLevel` starts at 1 and is replaced by
any strictly larger rating level. -/
def maxDangerLevel (doc : BulletinDoc) : Nat :=
  doc.bulletins.foldl
    (fun acc b =>
      b.dangerRatings.foldl
        (fun mx r => if mx < ratingLevel r then ratingLevel r else mx) acc)
    1

/-- All mapped sub-region levels of a document, in bulletin order. -/
def levelsOf (doc : BulletinDoc) : List Nat :=
  (doc.bulletins.map (fun b => b.dangerRatings.map ratingLevel)).flatten

/-- The value returned for the `avalanche` variable (the emoji column
is a fixed per-level symbol and is not modelled). -/
structure Assessment where
  level : Nat
  label : Option Str
  color : Option Str
  validFrom : Option Str
  validTo : Option Str
  deriving DecidableEq, Repr

/-- `fetchAvalancheData` seen from its fetch/parse result: any failure
is caught and `null` returned; otherwise the maximum danger level with
its fixed label and color. -/
def fetchAvalancheData (fetchResult : Except Str BulletinDoc) : Option Assessment :=
  match fetchResult with
  | Except.error _ => none
  | Except.ok data =>
    let maxLevel := maxDangerLevel data
    some
      { level := maxLevel
        label := labelMapF maxLevel
        color := colorMapF maxLevel
        validFrom := data.bulletins.head?.bind (fun b => b.validTime.map (fun p => p.1))
        validTo := data.bulletins.head?.bind (fun b => b.validTime.map (fun p => p.2)) }

/-! ## The run (`main`, src/fetch-data.js lines 442–471)

`main` aggregates all per-resort data (every per-source failure is
caught inside its fetcher), renders, and then performs two sequential
`writeFileSync` calls.  The published snapshot is the pair of output
files; a write either succeeds, replacing that file's content, or
throws, in which case `main().catch` exits the process with a non-zero
code.  The rendered artifacts are modelled by the data they are a
deterministic function of: the timestamp and the aggregated list. -/

/-- One named entry of the live map (`{ name, status }`). -/
structure LiftEntry where
  name : Str
  status : Str
  deriving DecidableEq, Repr

/-- The live-map result: lifts and pistes. -/
structure SkiramaData where
  lifts : List LiftEntry
  pistes : List LiftEntry
  deriving DecidableEq, Repr

/-- `fetchSkiramaData` seen from its fetch result. -/
def fetchSkiramaDataE (r : Except Str SkiramaData) : SkiramaData :=
  match r with
  | Except.error _ => ⟨[], []⟩
  | Except.ok d => d

/-- The per-resort fetch results, each one either the retrieved data or
a transport failure. -/
structure ResortFetch where
  weatherTopDaily : Except Str (List Nat × List (Option ℚ))
  onTheSnowHtml : Except Str Str
  skirama : Except Str SkiramaData
  scheduleBlocks : Except Str (List (Str × Str))

/-- One resort's aggregated entry of `allData`. -/
structure ResortBundle where
  weatherTopDaily : Option (List Nat × List (Option ℚ))
  lifts : LiftStats
  skirama : SkiramaData
  schedule : Schedule
  avalanche : Option Assessment
  deriving DecidableEq

/-- Build one `allData` entry: every fetch failure was caught inside
its fetcher and replaced by that fetcher's default. -/
def aggregateResort (av : Option Assessment) (f : ResortFetch) : ResortBundle where
  weatherTopDaily :=
    match f.weatherTopDaily with
    | Except.error _ => none
    | Except.ok d => some d
  lifts := fetchLiftPisteDataE f.onTheSnowHtml
  skirama := fetchSkiramaDataE f.skirama
  schedule := fetchLiftScheduleE f.scheduleBlocks
  avalanche := av

/-- The published snapshot: contents of `docs/index.html` and
`docs/data.json` (or `none` when a file does not exist yet). -/
structure FS where
  indexHtml : Option (Str × List ResortBundle)
  dataJson : Option (Str × List ResortBundle)
  deriving DecidableEq

/-- How a run ends: normal completion, or `process.exit(1)` from the
`main().catch` handler. -/
inductive RunOutcome
  | ok (fs : FS)
  | exitNonzero (fs : FS)
  deriving DecidableEq

/-- The whole run: reading/parsing the resort configuration happens
before anything else (a failure there exits non-zero before any write);
then all per-resort data is aggregated (fetch failures degrade, they
never throw), and the two output files are written in sequence, each
write either succeeding (`w1`/`w2`) or throwing. -/
def mainModel (cfg : Except Str (List ResortFetch)) (avRaw : Except Str BulletinDoc)
    (timestamp : Str) (fs : FS) (w1 w2 : Bool) : RunOutcome :=
  match cfg with
  | Except.error _ => RunOutcome.exitNonzero fs
  | Except.ok resorts =>
    let av := fetchAvalancheData avRaw
    let allData := resorts.map (aggregateResort av)
    if w1 then
      let fs1 : FS := { fs with indexHtml := some (timestamp, allData) }
      if w2 then RunOutcome.ok { fs1 with dataJson := some (timestamp, allData) }
      else RunOutcome.exitNonzero fs1
    else RunOutcome.exitNonzero fs

/-! ## Case/whitespace variation (for the matcher-normalization claim) -/

/-- Is the head character (if any) not whitespace? -/
def headNonWs : Str → Bool
  | [] => true
  | c :: _ => !isWsChar c

/-- Two names differ only in letter case and in runs of whitespace:
non-whitespace characters correspond one to one up to case, and each
maximal whitespace run corresponds to a maximal whitespace run. -/
inductive WsCaseEquiv : Str → Str → Prop
  | nil : WsCaseEquiv [] []
  | ch {c d : Char} {s t : Str} :
      isWsChar c = false → isWsChar d = false → upChar c = upChar d →
      WsCaseEquiv s t → WsCaseEquiv (c :: s) (d :: t)
  | run {r r' s t : Str} :
      r ≠ [] → r' ≠ [] →
      (∀ c ∈ r, isWsChar c = true) → (∀ c ∈ r', isWsChar c = true) →
      headNonWs s = true → headNonWs t = true →
      WsCaseEquiv s t → WsCaseEquiv (r ++ s) (r' ++ t)

/-- Is the head character (if any) not a digit? -/
def headNotDigit : Str → Bool
  | [] => true
  | c :: _ => !isDigitChar c

/-- A canonical occupancy mention, `"<kw> Open <a>/<b>"`. -/
def occMention (kw a b : Str) : Str := kw ++ " Open ".data ++ a ++ '/' :: b

/-- `"Lifts Open <a>/<b>"`. -/
def liftsMention (a b : Str) : Str := occMention "Lifts".data a b

/-- `"Runs Open <c>/<d>"`. -/
def runsMention (c d : Str) : Str := occMention "Runs".data c d

/-! # Theorems -/

/-! ## Character and whitespace lemmas -/

theorem toNat_ofNat_small {n : Nat} (h : n < 0xd800) : (Char.ofNat n).toNat = n := by
  unfold Char.ofNat
  rw [dif_pos (Or.inl h)]
  unfold Char.ofNatAux Char.toNat
  simp [UInt32.ofNat', UInt32.toNat]

theorem char_eq_iff_toNat {c d : Char} : c = d ↔ c.toNat = d.toNat :=
  ⟨fun h => by rw [h], fun h => Char.ext (UInt32.toNat.inj h)⟩

theorem isWsChar_iff {c : Char} :
    isWsChar c = true ↔ (c.toNat = 32 ∨ c.toNat = 9 ∨ c.toNat = 10 ∨ c.toNat = 13) := by
  have h1 : (' ' : Char).toNat = 32 := by decide
  have h2 : ('\t' : Char).toNat = 9 := by decide
  have h3 : ('\n' : Char).toNat = 10 := by decide
  have h4 : ('\r' : Char).toNat = 13 := by decide
  simp only [isWsChar, Bool.or_eq_true, decide_eq_true_eq, char_eq_iff_toNat, h1, h2, h3, h4]
  tauto

theorem upChar_not_lower {c : Char} (h : ¬(97 ≤ c.toNat ∧ c.toNat ≤ 122)) : upChar c = c := by
  unfold upChar
  rw [if_neg h]

theorem toNat_upChar {c : Char} (h : 97 ≤ c.toNat ∧ c.toNat ≤ 122) :
    (upChar c).toNat = c.toNat - 32 := by
  unfold upChar
  rw [if_pos h]
  exact toNat_ofNat_small (by omega)

theorem isWsChar_upChar (c : Char) : isWsChar (upChar c) = isWsChar c := by
  by_cases h : 97 ≤ c.toNat ∧ c.toNat ≤ 122
  · have h1 := toNat_upChar h
    have l : isWsChar (upChar c) = false := by
      apply Bool.eq_false_iff.mpr
      intro hw
      rw [isWsChar_iff] at hw
      omega
    have r : isWsChar c = false := by
      apply Bool.eq_false_iff.mpr
      intro hw
      rw [isWsChar_iff] at hw
      omega
    rw [l, r]
  · rw [upChar_not_lower h]

theorem upChar_ws {c : Char} (h : isWsChar c = true) : upChar c = c := by
  apply upChar_not_lower
  rw [isWsChar_iff] at h
  omega

/-! ## Collapse lemmas -/

theorem collapse_cons_nonws {c : Char} (h : isWsChar c = false) (t : Str) :
    collapse (c :: t) = c :: collapse t := by
  cases t <;> simp [collapse, h]

theorem collapse_ws_ws {c d : Char} (hc : isWsChar c = true) (hd : isWsChar d = true) (t : Str) :
    collapse (c :: d :: t) = collapse (d :: t) := by
  simp [collapse, hc, hd]

theorem collapse_ws_nonws {c d : Char} (hc : isWsChar c = true) (hd : isWsChar d = false)
    (t : Str) : collapse (c :: d :: t) = ' ' :: collapse (d :: t) := by
  simp [collapse, hc, hd]

theorem collapse_ws_nil {c : Char} (hc : isWsChar c = true) : collapse [c] = [' '] := by
  simp [collapse, hc]

theorem collapse_run_append : ∀ (r : Str), r ≠ [] → (∀ c ∈ r, isWsChar c = true) →
    ∀ (u : Str), headNonWs u = true → collapse (r ++ u) = ' ' :: collapse u
  | [], hne, _, _, _ => absurd rfl hne
  | [c], _, hws, u, hu => by
    cases u with
    | nil => simpa using collapse_ws_nil (hws c (by simp))
    | cons d u' =>
      have hd : isWsChar d = false := by simpa [headNonWs] using hu
      simpa using collapse_ws_nonws (hws c (by simp)) hd u'
  | c :: c' :: r'', _, hws, u, hu => by
    have step := collapse_ws_ws (hws c (by simp)) (hws c' (by simp)) (r'' ++ u)
    calc collapse ((c :: c' :: r'') ++ u) = collapse ((c' :: r'') ++ u) := by simpa using step
      _ = ' ' :: collapse u :=
        collapse_run_append (c' :: r'') (by simp) (fun x hx => hws x (by simp [hx])) u hu

theorem headNonWs_map_upChar {s : Str} (h : headNonWs s = true) :
    headNonWs (s.map upChar) = true := by
  cases s with
  | nil => rfl
  | cons c t =>
    simp only [List.map_cons, headNonWs, isWsChar_upChar] at *
    exact h

theorem map_upChar_ws_run {r : Str} (h : ∀ c ∈ r, isWsChar c = true) : r.map upChar = r := by
  induction r with
  | nil => rfl
  | cons c t ih =>
    simp only [List.map_cons, upChar_ws (h c (by simp)), List.cons.injEq, true_and]
    exact ih (fun x hx => h x (by simp [hx]))

theorem wsCaseEquiv_normName {s t : Str} (h : WsCaseEquiv s t) : normName s = normName t := by
  induction h with
  | nil => rfl
  | ch hc hd hcd _ ih =>
    simp only [normName, List.map_cons] at *
    rw [collapse_cons_nonws (by rw [isWsChar_upChar]; exact hc),
        collapse_cons_nonws (by rw [isWsChar_upChar]; exact hd), hcd, ih]
  | run hne hne' hws hws' hhs hht _ ih =>
    simp only [normName, List.map_append] at *
    rw [map_upChar_ws_run hws, map_upChar_ws_run hws',
        collapse_run_append _ hne hws _ (headNonWs_map_upChar hhs),
        collapse_run_append _ hne' hws' _ (headNonWs_map_upChar hht), ih]

/-! ## Word-overlap fold lemmas -/

theorem foldl_overlapStep_le (nw : List Str) (l : HoursMap) (acc : Option TimePair × Nat)
    (b : Nat) (hacc : acc.2 ≤ b) (hl : ∀ p ∈ l, overlapCount nw (words p.1) ≤ b) :
    (l.foldl (overlapStep nw) acc).2 ≤ b := by
  induction l generalizing acc with
  | nil => simpa
  | cons p l' ih =>
    simp only [List.foldl_cons]
    refine ih _ ?_ (fun q hq => hl q (by simp [hq]))
    unfold overlapStep
    dsimp only
    split
    · exact hl p (by simp)
    · exact hacc

theorem overlapStep_hit (nw : List Str) (acc : Option TimePair × Nat) (k : Str) (v : TimePair)
    (h : acc.2 < overlapCount nw (words k)) :
    overlapStep nw acc (k, v) = (some v, overlapCount nw (words k)) := by
  unfold overlapStep
  dsimp only
  rw [if_pos h]

theorem foldl_overlapStep_skip (nw : List Str) (l : HoursMap) (acc : Option TimePair × Nat)
    (hl : ∀ p ∈ l, overlapCount nw (words p.1) ≤ acc.2) :
    l.foldl (overlapStep nw) acc = acc := by
  induction l with
  | nil => rfl
  | cons p l' ih =>
    simp only [List.foldl_cons]
    have h1 : overlapStep nw acc p = acc := by
      unfold overlapStep
      dsimp only
      rw [if_neg (by have := hl p (by simp); omega)]
    rw [h1]
    exact ih (fun q hq => hl q (by simp [hq]))

/-! ## Claims about the entity matcher -/

/-- C6: when neither the exact lookup nor the containment loop hits,
and every schedule entry shares at most one meaningful token with the
lift name, the matcher returns no match — an overlap of 1 never
produces a match, the threshold is 2. -/
theorem C6_single_token_overlap_never_matches (liftName : Str) (hours : HoursMap)
    (hL : lookupKey hours (normName liftName) = none)
    (hC : containLoop (normName liftName) hours = none)
    (hov : ∀ p ∈ hours, overlapCount (words (normName liftName)) (words p.1) ≤ 1) :
    matchLiftHours liftName hours = none := by
  unfold matchLiftHours
  simp only [hL, hC]
  have hb : (bestOverlap (words (normName liftName)) hours).2 ≤ 1 :=
    foldl_overlapStep_le _ _ _ 1 (by simp) hov
  rw [if_neg (by omega)]

/-- C6 witness: a lift name sharing exactly one meaningful token with
the only schedule entry is not matched. -/
theorem C6_witness :
    lookupKey [(['B', 'E', 'T', 'A', ' ', 'T', 'W', 'O'], TimePair.mk ['9', ':', '0', '0'] ['1', '6', ':', '0', '0'])]
      (normName ['A', 'l', 'p', 'h', 'a', ' ', 'B', 'e', 't', 'a']) = none ∧
    containLoop (normName ['A', 'l', 'p', 'h', 'a', ' ', 'B', 'e', 't', 'a'])
      [(['B', 'E', 'T', 'A', ' ', 'T', 'W', 'O'], TimePair.mk ['9', ':', '0', '0'] ['1', '6', ':', '0', '0'])] = none ∧
    overlapCount (words (normName ['A', 'l', 'p', 'h', 'a', ' ', 'B', 'e', 't', 'a']))
      (words ['B', 'E', 'T', 'A', ' ', 'T', 'W', 'O']) = 1 ∧
    matchLiftHours ['A', 'l', 'p', 'h', 'a', ' ', 'B', 'e', 't', 'a']
      [(['B', 'E', 'T', 'A', ' ', 'T', 'W', 'O'], TimePair.mk ['9', ':', '0', '0'] ['1', '6', ':', '0', '0'])] = none := by
  refine ⟨by decide, by decide, by decide, ?_⟩
  exact C6_single_token_overlap_never_matches _ _ (by decide) (by decide) (by decide)

/-- C1 counterexample: two schedule entries tie at the highest overlap
count 2 with the status name, no exact or containment match exists, and
the matcher nevertheless returns the first entry of the map instead of
no match. -/
theorem C1_counterexample :
    lookupKey
      [(['A', 'L', 'P', 'H', 'A', ' ', 'B', 'E', 'T', 'A', ' ', 'O', 'N', 'E'], TimePair.mk ['8', ':', '3', '0'] ['1', '6', ':', '0', '0']),
       (['A', 'L', 'P', 'H', 'A', ' ', 'B', 'E', 'T', 'A', ' ', 'T', 'W', 'O'], TimePair.mk ['9', ':', '0', '0'] ['1', '7', ':', '0', '0'])]
      (normName ['A', 'l', 'p', 'h', 'a', ' ', 'B', 'e', 't', 'a', ' ', 'X']) = none ∧
    containLoop (normName ['A', 'l', 'p', 'h', 'a', ' ', 'B', 'e', 't', 'a', ' ', 'X'])
      [(['A', 'L', 'P', 'H', 'A', ' ', 'B', 'E', 'T', 'A', ' ', 'O', 'N', 'E'], TimePair.mk ['8', ':', '3', '0'] ['1', '6', ':', '0', '0']),
       (['A', 'L', 'P', 'H', 'A', ' ', 'B', 'E', 'T', 'A', ' ', 'T', 'W', 'O'], TimePair.mk ['9', ':', '0', '0'] ['1', '7', ':', '0', '0'])] = none ∧
    overlapCount (words (normName ['A', 'l', 'p', 'h', 'a', ' ', 'B', 'e', 't', 'a', ' ', 'X']))
      (words ['A', 'L', 'P', 'H', 'A', ' ', 'B', 'E', 'T', 'A', ' ', 'O', 'N', 'E']) = 2 ∧
    overlapCount (words (normName ['A', 'l', 'p', 'h', 'a', ' ', 'B', 'e', 't', 'a', ' ', 'X']))
      (words ['A', 'L', 'P', 'H', 'A', ' ', 'B', 'E', 'T', 'A', ' ', 'T', 'W', 'O']) = 2 ∧
    matchLiftHours ['A', 'l', 'p', 'h', 'a', ' ', 'B', 'e', 't', 'a', ' ', 'X']
      [(['A', 'L', 'P', 'H', 'A', ' ', 'B', 'E', 'T', 'A', ' ', 'O', 'N', 'E'], TimePair.mk ['8', ':', '3', '0'] ['1', '6', ':', '0', '0']),
       (['A', 'L', 'P', 'H', 'A', ' ', 'B', 'E', 'T', 'A', ' ', 'T', 'W', 'O'], TimePair.mk ['9', ':', '0', '0'] ['1', '7', ':', '0', '0'])] =
      some (TimePair.mk ['8', ':', '3', '0'] ['1', '6', ':', '0', '0']) := by
  decide

/-- C1 (amended): with no exact or containment match, the matcher
returns the hours of the first entry (in insertion order) that attains
the highest token-overlap count, provided that count is at least 2 —
even when later entries tie it.  A tie is not reported as "no match".  -/
theorem C1_tie_returns_first_best (liftName k : Str) (v : TimePair)
    (hours pre post : HoursMap) (n : Nat)
    (hsplit : hours = pre ++ (k, v) :: post)
    (hL : lookupKey hours (normName liftName) = none)
    (hC : containLoop (normName liftName) hours = none)
    (hk : overlapCount (words (normName liftName)) (words k) = n)
    (h2 : 2 ≤ n)
    (hpre : ∀ p ∈ pre, overlapCount (words (normName liftName)) (words p.1) < n)
    (hpost : ∀ p ∈ post, overlapCount (words (normName liftName)) (words p.1) ≤ n) :
    matchLiftHours liftName hours = some v := by
  unfold matchLiftHours
  simp only [hL, hC]
  have hfold : bestOverlap (words (normName liftName)) hours = (some v, n) := by
    unfold bestOverlap
    rw [hsplit, List.foldl_append]
    have hacc : (pre.foldl (overlapStep (words (normName liftName))) (none, 0)).2 < n := by
      have := foldl_overlapStep_le (words (normName liftName)) pre (none, 0) (n - 1)
        (by omega) (fun p hp => by have := hpre p hp; omega)
      omega
    simp only [List.foldl_cons]
    rw [overlapStep_hit _ _ _ _ (by rw [hk]; exact hacc), hk]
    exact foldl_overlapStep_skip _ _ _ (fun p hp => hpost p hp)
  rw [hfold]
  simp [h2]

/-- C1 amended witness: at the tie input of the counterexample, the
amended statement produces the first tied entry. -/
theorem C1_tie_returns_first_best_witness :
    matchLiftHours ['A', 'l', 'p', 'h', 'a', ' ', 'B', 'e', 't', 'a', ' ', 'X']
      [(['A', 'L', 'P', 'H', 'A', ' ', 'B', 'E', 'T', 'A', ' ', 'O', 'N', 'E'], TimePair.mk ['8', ':', '3', '0'] ['1', '6', ':', '0', '0']),
       (['A', 'L', 'P', 'H', 'A', ' ', 'B', 'E', 'T', 'A', ' ', 'T', 'W', 'O'], TimePair.mk ['9', ':', '0', '0'] ['1', '7', ':', '0', '0'])] =
      some (TimePair.mk ['8', ':', '3', '0'] ['1', '6', ':', '0', '0']) :=
  C1_tie_returns_first_best
    ['A', 'l', 'p', 'h', 'a', ' ', 'B', 'e', 't', 'a', ' ', 'X']
    ['A', 'L', 'P', 'H', 'A', ' ', 'B', 'E', 'T', 'A', ' ', 'O', 'N', 'E']
    (TimePair.mk ['8', ':', '3', '0'] ['1', '6', ':', '0', '0'])
    _ []
    [(['A', 'L', 'P', 'H', 'A', ' ', 'B', 'E', 'T', 'A', ' ', 'T', 'W', 'O'], TimePair.mk ['9', ':', '0', '0'] ['1', '7', ':', '0', '0'])]
    2 rfl (by decide) (by decide) (by decide) (by decide) (by decide) (by decide)

/-- C10: the matcher normalizes its input by upper-casing and
collapsing whitespace, so two status names that differ only in letter
case or in runs of whitespace receive the same result against every
schedule map. -/
theorem C10_matcher_case_ws_invariant (s t : Str) (h : WsCaseEquiv s t) (hours : HoursMap) :
    matchLiftHours s hours = matchLiftHours t hours := by
  unfold matchLiftHours
  rw [wsCaseEquiv_normName h]

/-- C10 witness: two concrete names differing in case and in one
whitespace run receive the same result. -/
theorem C10_matcher_case_ws_invariant_witness :
    WsCaseEquiv ['a', 'B', ' ', 'c'] ['A', 'b', ' ', ' ', 'C'] ∧
    matchLiftHours ['a', 'B', ' ', 'c'] [(['A', 'B', ' ', 'C'], TimePair.mk ['9', ':', '0', '0'] ['1', '6', ':', '3', '0'])] =
      matchLiftHours ['A', 'b', ' ', ' ', 'C'] [(['A', 'B', ' ', 'C'], TimePair.mk ['9', ':', '0', '0'] ['1', '6', ':', '3', '0'])] := by
  have e : WsCaseEquiv ['a', 'B', ' ', 'c'] ['A', 'b', ' ', ' ', 'C'] :=
    WsCaseEquiv.ch (by decide) (by decide) (by decide)
      (WsCaseEquiv.ch (by decide) (by decide) (by decide)
        (@WsCaseEquiv.run [' '] [' ', ' '] ['c'] ['C'] (by decide) (by decide)
          (by decide) (by decide) (by decide) (by decide)
          (WsCaseEquiv.ch (by decide) (by decide) (by decide) WsCaseEquiv.nil)))
  exact ⟨e, C10_matcher_case_ws_invariant _ _ e _⟩

/-! ## List scanning lemmas -/

theorem takeWhile_append_all {p : Char → Bool} :
    ∀ {l1 l2 : Str}, (∀ c ∈ l1, p c = true) → (l1 ++ l2).takeWhile p = l1 ++ l2.takeWhile p
  | [], _, _ => rfl
  | c :: t, l2, h => by
    rw [List.cons_append, List.takeWhile_cons, if_pos (h c (by simp)),
      takeWhile_append_all (fun x hx => h x (by simp [hx])), List.cons_append]

theorem dropWhile_append_all {p : Char → Bool} :
    ∀ {l1 l2 : Str}, (∀ c ∈ l1, p c = true) → (l1 ++ l2).dropWhile p = l2.dropWhile p
  | [], _, _ => rfl
  | c :: t, l2, h => by
    rw [List.cons_append, List.dropWhile_cons, if_pos (h c (by simp)),
      dropWhile_append_all (fun x hx => h x (by simp [hx]))]

theorem takeWhile_cons_false {p : Char → Bool} {c : Char} (t : Str) (h : p c = false) :
    (c :: t).takeWhile p = [] := by
  rw [List.takeWhile_cons, if_neg (by simp [h])]

theorem dropWhile_cons_false {p : Char → Bool} {c : Char} (t : Str) (h : p c = false) :
    (c :: t).dropWhile p = c :: t := by
  rw [List.dropWhile_cons, if_neg (by simp [h])]

theorem digit_toNat {c : Char} (h : isDigitChar c = true) : 48 ≤ c.toNat ∧ c.toNat ≤ 57 := by
  simpa [isDigitChar] using h

theorem digit_not_ws {c : Char} (h : isDigitChar c = true) : isWsChar c = false := by
  have hd := digit_toNat h
  apply Bool.eq_false_iff.mpr
  intro hw
  rw [isWsChar_iff] at hw
  omega

theorem upChar_digit {c : Char} (h : isDigitChar c = true) : upChar c = c := by
  have hd := digit_toNat h
  exact upChar_not_lower (by omega)

theorem upChar_digit_ne {c : Char} (h : isDigitChar c = true) {u : Char} (hu : 65 ≤ u.toNat) :
    upChar c ≠ u := by
  rw [upChar_digit h]
  intro he
  have hd := digit_toNat h
  rw [char_eq_iff_toNat] at he
  omega

theorem digit_ne_lt {c : Char} (h : isDigitChar c = true) : c ≠ '<' := by
  intro he
  have hd := digit_toNat h
  rw [char_eq_iff_toNat] at he
  have : ('<' : Char).toNat = 60 := by decide
  omega

/-! ## Identity of tag stripping and whitespace collapsing on clean text -/

theorem stripTagsFuel_no_lt :
    ∀ (fuel : Nat) (s : Str), (∀ c ∈ s, c ≠ '<') → stripTagsFuel fuel s = s
  | 0, _, _ => rfl
  | _ + 1, [], _ => rfl
  | fuel + 1, c :: t, h => by
    simp only [stripTagsFuel]
    rw [if_neg (h c (by simp)), stripTagsFuel_no_lt fuel t (fun x hx => h x (by simp [hx]))]

theorem stripTags_no_lt (s : Str) (h : ∀ c ∈ s, c ≠ '<') : stripTags s = s :=
  stripTagsFuel_no_lt _ _ h

theorem collapse_append_nws :
    ∀ (l1 l2 : Str), (∀ c ∈ l1, isWsChar c = false) → collapse (l1 ++ l2) = l1 ++ collapse l2
  | [], _, _ => rfl
  | c :: t, l2, h => by
    rw [List.cons_append, collapse_cons_nonws (h c (by simp)),
      collapse_append_nws t l2 (fun x hx => h x (by simp [hx])), List.cons_append]

theorem collapse_space (t : Str) (h : headNonWs t = true) :
    collapse (' ' :: t) = ' ' :: collapse t := by
  cases t with
  | nil => exact collapse_ws_nil (show isWsChar ' ' = true from rfl)
  | cons d t' =>
    exact collapse_ws_nonws (show isWsChar ' ' = true from rfl)
      (by simpa [headNonWs] using h) t'

/-! ## First-match scanning lemmas -/

theorem firstScan_hit {α : Type} (p : Str → Option α) (s : Str) (r : α) (h : p s = some r) :
    firstScan p s = some r := by
  cases s with
  | nil => simpa [firstScan] using h
  | cons c t => simp [firstScan, h]

theorem firstScan_append_none {α : Type} (p : Str → Option α) (pre u : Str)
    (h : ∀ c ∈ pre, ∀ t : Str, p (c :: t) = none) :
    firstScan p (pre ++ u) = firstScan p u := by
  induction pre with
  | nil => rfl
  | cons c pre' ih =>
    rw [List.cons_append]
    simp only [firstScan, h c (by simp) (pre' ++ u)]
    exact ih (fun x hx t => h x (by simp [hx]) t)

theorem dropLitCI_refl : ∀ (p t : Str), dropLitCI p (p ++ t) = some t
  | [], _ => rfl
  | c :: p', t => by
    rw [List.cons_append]
    simp only [dropLitCI, if_pos rfl]
    exact dropLitCI_refl p' t

theorem occAt_head_ne (k0 : Char) (kw : Str) (x : Char) (t : Str) (h : upChar k0 ≠ upChar x) :
    occAt (k0 :: kw) (x :: t) = none := by
  unfold occAt
  simp only [dropLitCI, if_neg h]

/-! ## Evaluating the occupancy pattern on a canonical mention -/

theorem collapse_open_seg (X : Str) (hx : headNonWs X = true) :
    collapse (' ' :: 'O' :: 'p' :: 'e' :: 'n' :: ' ' :: X) =
      ' ' :: 'O' :: 'p' :: 'e' :: 'n' :: ' ' :: collapse X := by
  rw [collapse_space _ (show headNonWs ('O' :: 'p' :: 'e' :: 'n' :: ' ' :: X) = true from rfl),
    collapse_cons_nonws (show isWsChar 'O' = false from rfl),
    collapse_cons_nonws (show isWsChar 'p' = false from rfl),
    collapse_cons_nonws (show isWsChar 'e' = false from rfl),
    collapse_cons_nonws (show isWsChar 'n' = false from rfl),
    collapse_space _ hx]

theorem headNonWs_digits {a : Str} (ha : a ≠ []) (had : ∀ c ∈ a, isDigitChar c = true)
    (X : Str) : headNonWs (a ++ X) = true := by
  cases a with
  | nil => exact absurd rfl ha
  | cons x a' => simp [headNonWs, digit_not_ws (had x (by simp))]

theorem collapse_occMention (kw a b t : Str) (hkw : ∀ c ∈ kw, isWsChar c = false)
    (ha : a ≠ []) (had : ∀ c ∈ a, isDigitChar c = true)
    (hbd : ∀ c ∈ b, isDigitChar c = true) :
    collapse (occMention kw a b ++ t) = occMention kw a b ++ collapse t := by
  unfold occMention
  simp only [List.append_assoc, List.cons_append, List.nil_append, String.data]
  rw [collapse_append_nws kw _ hkw]
  rw [collapse_open_seg _ (headNonWs_digits ha had _)]
  rw [collapse_append_nws a _ (fun c hc => digit_not_ws (had c hc))]
  rw [collapse_cons_nonws (show isWsChar '/' = false from rfl)]
  rw [collapse_append_nws b _ (fun c hc => digit_not_ws (hbd c hc))]

theorem occAt_occMention (kw a b rest : Str)
    (ha : a ≠ []) (had : ∀ c ∈ a, isDigitChar c = true)
    (hb : b ≠ []) (hbd : ∀ c ∈ b, isDigitChar c = true)
    (hrest : headNotDigit rest = true) :
    occAt kw (occMention kw a b ++ rest) = some (a, b) := by
  unfold occAt occMention
  simp only [List.append_assoc, List.cons_append, List.nil_append, String.data]
  rw [dropLitCI_refl]
  dsimp only
  have e2 : dropLitCI ['O', 'p', 'e', 'n']
      (List.dropWhile isWsChar
        (' ' :: 'O' :: 'p' :: 'e' :: 'n' :: ' ' :: (a ++ '/' :: (b ++ rest)))) =
      some (' ' :: (a ++ '/' :: (b ++ rest))) := rfl
  rw [e2]
  dsimp only
  have e3 : List.dropWhile isWsChar (' ' :: (a ++ '/' :: (b ++ rest))) =
      a ++ '/' :: (b ++ rest) := by
    rw [List.dropWhile_cons, if_pos (show isWsChar ' ' = true from rfl)]
    cases a with
    | nil => exact absurd rfl ha
    | cons x a' =>
      rw [List.cons_append]
      exact dropWhile_cons_false _ (digit_not_ws (had x (by simp)))
  rw [e3]
  have e4 : List.takeWhile isDigitChar (a ++ '/' :: (b ++ rest)) = a := by
    rw [takeWhile_append_all had, takeWhile_cons_false _ (show isDigitChar '/' = false from rfl),
      List.append_nil]
  have e5 : List.dropWhile isDigitChar (a ++ '/' :: (b ++ rest)) = '/' :: (b ++ rest) := by
    rw [dropWhile_append_all had, dropWhile_cons_false _ (show isDigitChar '/' = false from rfl)]
  rw [e4, e5, if_neg ha]
  rw [dropWhile_cons_false _ (show isWsChar '/' = false from rfl)]
  have e6 : List.dropWhile isWsChar (b ++ rest) = b ++ rest := by
    cases b with
    | nil => exact absurd rfl hb
    | cons x b' =>
      rw [List.cons_append]
      exact dropWhile_cons_false _ (digit_not_ws (hbd x (by simp)))
  have e7 : List.takeWhile isDigitChar (b ++ rest) = b := by
    rw [takeWhile_append_all hbd]
    cases rest with
    | nil => simp
    | cons y r' =>
      rw [takeWhile_cons_false _ (by simpa [headNotDigit] using hrest), List.append_nil]
  simp only [e6, e7, if_neg hb]

/-! ## Field characterization of the stats extractor -/

theorem extractStats_fields (html : Str) :
    (extractStats html).liftsOpen =
      (firstScan (occAt "Lifts".data) (collapse (stripTags html))).map (fun p => digitsToNat p.1) ∧
    (extractStats html).liftsTotal =
      (firstScan (occAt "Lifts".data) (collapse (stripTags html))).map (fun p => digitsToNat p.2) ∧
    (extractStats html).runsOpen =
      (firstScan (occAt "Runs".data) (collapse (stripTags html))).map (fun p => digitsToNat p.1) ∧
    (extractStats html).runsTotal =
      (firstScan (occAt "Runs".data) (collapse (stripTags html))).map (fun p => digitsToNat p.2) ∧
    (extractStats html).kmOpen =
      (firstScan kmAt (collapse (stripTags html))).map digitsToNat ∧
    (extractStats html).baseDepth =
      (firstScan (depthAt "Base".data) (collapse (stripTags html))).map digitsToNat ∧
    (extractStats html).summitDepth =
      (firstScan (depthAt "Summit".data) (collapse (stripTags html))).map digitsToNat ∧
    (extractStats html).condition = firstScan condAt (collapse (stripTags html)) := by
  unfold extractStats
  dsimp only
  rcases h1 : firstScan (occAt "Lifts".data) (collapse (stripTags html)) with _ | ⟨a1, b1⟩ <;>
  rcases h2 : firstScan (occAt "Runs".data) (collapse (stripTags html)) with _ | ⟨a2, b2⟩ <;>
  rcases h3 : firstScan kmAt (collapse (stripTags html)) with _ | k3 <;>
  rcases h4 : firstScan (depthAt "Base".data) (collapse (stripTags html)) with _ | k4 <;>
  rcases h5 : firstScan (depthAt "Summit".data) (collapse (stripTags html)) with _ | k5 <;>
  rcases h6 : firstScan condAt (collapse (stripTags html)) with _ | k6 <;>
  simp [applyLifts, applyRuns, applyKm, applyBase, applySummit, applyCond,
    h1, h2, h3, h4, h5, h6, emptyStats]

/-- C8: each extraction pattern is evaluated independently on the
cleaned text; a pattern that finds no match leaves exactly its own
field(s) as the unknown sentinel `none` and has no effect on any other
field of the result. -/
theorem C8_pattern_miss_is_isolated (html : Str) :
    (extractStats html).liftsOpen =
      (firstScan (occAt "Lifts".data) (collapse (stripTags html))).map (fun p => digitsToNat p.1) ∧
    (extractStats html).liftsTotal =
      (firstScan (occAt "Lifts".data) (collapse (stripTags html))).map (fun p => digitsToNat p.2) ∧
    (extractStats html).runsOpen =
      (firstScan (occAt "Runs".data) (collapse (stripTags html))).map (fun p => digitsToNat p.1) ∧
    (extractStats html).runsTotal =
      (firstScan (occAt "Runs".data) (collapse (stripTags html))).map (fun p => digitsToNat p.2) ∧
    (extractStats html).kmOpen =
      (firstScan kmAt (collapse (stripTags html))).map digitsToNat ∧
    (extractStats html).baseDepth =
      (firstScan (depthAt "Base".data) (collapse (stripTags html))).map digitsToNat ∧
    (extractStats html).summitDepth =
      (firstScan (depthAt "Summit".data) (collapse (stripTags html))).map digitsToNat ∧
    (extractStats html).condition = firstScan condAt (collapse (stripTags html)) :=
  extractStats_fields html

/-! ## Order independence of the occupancy patterns -/

theorem occAt_runs_ne (x : Char) (t : Str) (h : upChar x ≠ 'R') :
    occAt "Runs".data (x :: t) = none := by
  have h1 : dropLitCI "Runs".data (x :: t) = none := by
    show (if upChar 'R' = upChar x then dropLitCI "uns".data t else none) = none
    rw [if_neg (by rw [show upChar 'R' = 'R' from rfl]; exact fun he => h he.symm)]
  unfold occAt
  rw [h1]

theorem occAt_lifts_ne (x : Char) (t : Str) (h : upChar x ≠ 'L') :
    occAt "Lifts".data (x :: t) = none := by
  have h1 : dropLitCI "Lifts".data (x :: t) = none := by
    show (if upChar 'L' = upChar x then dropLitCI "ifts".data t else none) = none
    rw [if_neg (by rw [show upChar 'L' = 'L' from rfl]; exact fun he => h he.symm)]
  unfold occAt
  rw [h1]

theorem occMention_no_lt (kw a b : Str) (hkw : ∀ x ∈ kw, x ≠ '<')
    (had : ∀ x ∈ a, isDigitChar x = true) (hbd : ∀ x ∈ b, isDigitChar x = true) :
    ∀ x ∈ occMention kw a b, x ≠ '<' := by
  intro x hx
  unfold occMention at hx
  rcases List.mem_append.mp hx with h1 | h2
  · rcases List.mem_append.mp h1 with h3 | h4
    · rcases List.mem_append.mp h3 with h5 | h6
      · exact hkw x h5
      · exact (by decide : ∀ y ∈ " Open ".data, y ≠ '<') x h6
    · exact digit_ne_lt (had x h4)
  · rcases List.mem_cons.mp h2 with h7 | h8
    · subst h7; decide
    · exact digit_ne_lt (hbd x h8)

theorem occMention_up_ne (kw a b : Str) (u : Char) (hu : 65 ≤ u.toNat)
    (hkw : ∀ x ∈ kw, upChar x ≠ u)
    (hop : ∀ x ∈ (" Open ".data : Str), upChar x ≠ u)
    (hsl : upChar '/' ≠ u)
    (had : ∀ x ∈ a, isDigitChar x = true) (hbd : ∀ x ∈ b, isDigitChar x = true) :
    ∀ x ∈ occMention kw a b, upChar x ≠ u := by
  intro x hx
  unfold occMention at hx
  rcases List.mem_append.mp hx with h1 | h2
  · rcases List.mem_append.mp h1 with h3 | h4
    · rcases List.mem_append.mp h3 with h5 | h6
      · exact hkw x h5
      · exact hop x h6
    · exact upChar_digit_ne (had x h4) hu
  · rcases List.mem_cons.mp h2 with h7 | h8
    · subst h7; exact hsl
    · exact upChar_digit_ne (hbd x h8) hu

/-- C7: a text carrying both a lifts-occupancy mention and a
runs-occupancy mention yields the same four parsed values whichever
mention comes first — both orders produce exactly
`(liftsOpen, liftsTotal, runsOpen, runsTotal) = (a, b, c, d)`. -/
theorem C7_extractor_order_independent (a b c d : Str)
    (ha : a ≠ []) (had : ∀ x ∈ a, isDigitChar x = true)
    (hb : b ≠ []) (hbd : ∀ x ∈ b, isDigitChar x = true)
    (hc : c ≠ []) (hcd : ∀ x ∈ c, isDigitChar x = true)
    (hd : d ≠ []) (hdd : ∀ x ∈ d, isDigitChar x = true) :
    ((extractStats (liftsMention a b ++ ' ' :: runsMention c d)).liftsOpen,
     (extractStats (liftsMention a b ++ ' ' :: runsMention c d)).liftsTotal,
     (extractStats (liftsMention a b ++ ' ' :: runsMention c d)).runsOpen,
     (extractStats (liftsMention a b ++ ' ' :: runsMention c d)).runsTotal) =
      (some (digitsToNat a), some (digitsToNat b), some (digitsToNat c), some (digitsToNat d)) ∧
    ((extractStats (runsMention c d ++ ' ' :: liftsMention a b)).liftsOpen,
     (extractStats (runsMention c d ++ ' ' :: liftsMention a b)).liftsTotal,
     (extractStats (runsMention c d ++ ' ' :: liftsMention a b)).runsOpen,
     (extractStats (runsMention c d ++ ' ' :: liftsMention a b)).runsTotal) =
      (some (digitsToNat a), some (digitsToNat b), some (digitsToNat c), some (digitsToNat d)) := by
  have hLkw : ∀ x ∈ ("Lifts".data : Str), isWsChar x = false := by decide
  have hRkw : ∀ x ∈ ("Runs".data : Str), isWsChar x = false := by decide
  have endR : collapse (occMention "Runs".data c d) = occMention "Runs".data c d := by
    have h := collapse_occMention "Runs".data c d [] hRkw hc hcd hdd
    simpa [collapse] using h
  have endL : collapse (occMention "Lifts".data a b) = occMention "Lifts".data a b := by
    have h := collapse_occMention "Lifts".data a b [] hLkw ha had hbd
    simpa [collapse] using h
  have hitR : occAt "Runs".data (occMention "Runs".data c d) = some (c, d) := by
    have h := occAt_occMention "Runs".data c d [] hc hcd hd hdd rfl
    simpa using h
  have hitL : occAt "Lifts".data (occMention "Lifts".data a b) = some (a, b) := by
    have h := occAt_occMention "Lifts".data a b [] ha had hb hbd rfl
    simpa using h
  -- text 1 : lifts first
  have noLt1 : ∀ x ∈ liftsMention a b ++ ' ' :: runsMention c d, x ≠ '<' := by
    intro x hx
    rcases List.mem_append.mp hx with h1 | h2
    · exact occMention_no_lt _ _ _ (by decide) had hbd x h1
    · rcases List.mem_cons.mp h2 with h3 | h4
      · subst h3; decide
      · exact occMention_no_lt _ _ _ (by decide) hcd hdd x h4
  have strip1 : stripTags (liftsMention a b ++ ' ' :: runsMention c d) =
      liftsMention a b ++ ' ' :: runsMention c d := stripTags_no_lt _ noLt1
  have headR : headNonWs (occMention "Runs".data c d) = true := rfl
  have headL : headNonWs (occMention "Lifts".data a b) = true := rfl
  have coll1 : collapse (liftsMention a b ++ ' ' :: runsMention c d) =
      liftsMention a b ++ ' ' :: runsMention c d := by
    unfold liftsMention runsMention
    rw [collapse_occMention _ _ _ _ hLkw ha had hbd]
    rw [collapse_space _ headR, endR]
  have scanL1 : firstScan (occAt "Lifts".data) (liftsMention a b ++ ' ' :: runsMention c d) =
      some (a, b) := by
    apply firstScan_hit
    unfold liftsMention
    exact occAt_occMention _ _ _ _ ha had hb hbd rfl
  have scanR1 : firstScan (occAt "Runs".data) (liftsMention a b ++ ' ' :: runsMention c d) =
      some (c, d) := by
    have re : liftsMention a b ++ ' ' :: runsMention c d =
        (liftsMention a b ++ [' ']) ++ runsMention c d := by simp
    rw [re, firstScan_append_none]
    · apply firstScan_hit
      unfold runsMention
      exact hitR
    · intro x hx t
      rcases List.mem_append.mp hx with h1 | h2
      · exact occAt_runs_ne x t
          (occMention_up_ne _ _ _ 'R' (by decide) (by decide) (by decide) (by decide) had hbd x h1)
      · rcases List.mem_cons.mp h2 with h3 | h4
        · subst h3; exact occAt_runs_ne _ t (by decide)
        · exact absurd h4 (List.not_mem_nil x)
  -- text 2 : runs first
  have noLt2 : ∀ x ∈ runsMention c d ++ ' ' :: liftsMention a b, x ≠ '<' := by
    intro x hx
    rcases List.mem_append.mp hx with h1 | h2
    · exact occMention_no_lt _ _ _ (by decide) hcd hdd x h1
    · rcases List.mem_cons.mp h2 with h3 | h4
      · subst h3; decide
      · exact occMention_no_lt _ _ _ (by decide) had hbd x h4
  have strip2 : stripTags (runsMention c d ++ ' ' :: liftsMention a b) =
      runsMention c d ++ ' ' :: liftsMention a b := stripTags_no_lt _ noLt2
  have coll2 : collapse (runsMention c d ++ ' ' :: liftsMention a b) =
      runsMention c d ++ ' ' :: liftsMention a b := by
    unfold liftsMention runsMention
    rw [collapse_occMention _ _ _ _ hRkw hc hcd hdd]
    rw [collapse_space _ headL, endL]
  have scanR2 : firstScan (occAt "Runs".data) (runsMention c d ++ ' ' :: liftsMention a b) =
      some (c, d) := by
    apply firstScan_hit
    unfold runsMention
    exact occAt_occMention _ _ _ _ hc hcd hd hdd rfl
  have scanL2 : firstScan (occAt "Lifts".data) (runsMention c d ++ ' ' :: liftsMention a b) =
      some (a, b) := by
    have re : runsMention c d ++ ' ' :: liftsMention a b =
        (runsMention c d ++ [' ']) ++ liftsMention a b := by simp
    rw [re, firstScan_append_none]
    · apply firstScan_hit
      unfold liftsMention
      exact hitL
    · intro x hx t
      rcases List.mem_append.mp hx with h1 | h2
      · exact occAt_lifts_ne x t
          (occMention_up_ne _ _ _ 'L' (by decide) (by decide) (by decide) (by decide) hcd hdd x h1)
      · rcases List.mem_cons.mp h2 with h3 | h4
        · subst h3; exact occAt_lifts_ne _ t (by decide)
        · exact absurd h4 (List.not_mem_nil x)
  obtain ⟨f1, f2, f3, f4, -, -, -, -⟩ :=
    extractStats_fields (liftsMention a b ++ ' ' :: runsMention c d)
  obtain ⟨g1, g2, g3, g4, -, -, -, -⟩ :=
    extractStats_fields (runsMention c d ++ ' ' :: liftsMention a b)
  rw [strip1, coll1] at f1 f2 f3 f4
  rw [strip2, coll2] at g1 g2 g3 g4
  rw [scanL1] at f1 f2
  rw [scanR1] at f3 f4
  rw [scanL2] at g1 g2
  rw [scanR2] at g3 g4
  refine ⟨?_, ?_⟩ <;> simp [f1, f2, f3, f4, g1, g2, g3, g4]

/-- C7 witness: the concrete spec example, `"Lifts Open 5/10"` and
`"Runs Open 3/8"` in both orders. -/
theorem C7_extractor_order_independent_witness :
    ((extractStats (liftsMention ['5'] ['1', '0'] ++ ' ' :: runsMention ['3'] ['8'])).liftsOpen,
     (extractStats (liftsMention ['5'] ['1', '0'] ++ ' ' :: runsMention ['3'] ['8'])).liftsTotal,
     (extractStats (liftsMention ['5'] ['1', '0'] ++ ' ' :: runsMention ['3'] ['8'])).runsOpen,
     (extractStats (liftsMention ['5'] ['1', '0'] ++ ' ' :: runsMention ['3'] ['8'])).runsTotal) =
      (some 5, some 10, some 3, some 8) ∧
    ((extractStats (runsMention ['3'] ['8'] ++ ' ' :: liftsMention ['5'] ['1', '0'])).liftsOpen,
     (extractStats (runsMention ['3'] ['8'] ++ ' ' :: liftsMention ['5'] ['1', '0'])).liftsTotal,
     (extractStats (runsMention ['3'] ['8'] ++ ' ' :: liftsMention ['5'] ['1', '0'])).runsOpen,
     (extractStats (runsMention ['3'] ['8'] ++ ' ' :: liftsMention ['5'] ['1', '0'])).runsTotal) =
      (some 5, some 10, some 3, some 8) :=
  C7_extractor_order_independent ['5'] ['1', '0'] ['3'] ['8']
    (by decide) (by decide) (by decide) (by decide)
    (by decide) (by decide) (by decide) (by decide)

/-! ## Hours-map lemmas -/

theorem lookupKey_insertKV_self : ∀ (m : HoursMap) (k : Str) (v : TimePair),
    lookupKey (insertKV m k v) k = some v
  | [], k, v => by simp [insertKV, lookupKey]
  | (k', v') :: t, k, v => by
    by_cases h : k' = k
    · subst h
      simp [insertKV, lookupKey]
    · simp only [insertKV, if_neg h, lookupKey]
      exact lookupKey_insertKV_self t k v

theorem lookupKey_insertKV_other : ∀ (m : HoursMap) (k k2 : Str) (v : TimePair), k2 ≠ k →
    lookupKey (insertKV m k v) k2 = lookupKey m k2
  | [], k, k2, v, h => by
    simp only [insertKV, lookupKey]
    rw [if_neg (fun he => h he.symm)]
  | (k', v') :: t, k, k2, v, h => by
    by_cases h1 : k' = k
    · subst h1
      simp only [insertKV, if_pos rfl, lookupKey]
      rw [if_neg (fun he => h he.symm), if_neg (fun he => h he.symm)]
    · simp only [insertKV, if_neg h1, lookupKey]
      by_cases h2 : k' = k2
      · rw [if_pos h2, if_pos h2]
      · rw [if_neg h2, if_neg h2]
        exact lookupKey_insertKV_other t k k2 v h

theorem mem_keys_insertKV : ∀ (m : HoursMap) (k : Str) (v : TimePair) (x : Str),
    x ∈ (insertKV m k v).map Prod.fst ↔ x ∈ m.map Prod.fst ∨ x = k
  | [], k, v, x => by
    simp only [insertKV, List.map_cons, List.map_nil, List.mem_cons, List.not_mem_nil]
    tauto
  | (k', v') :: t, k, v, x => by
    by_cases h : k' = k
    · subst h
      have e : insertKV ((k', v') :: t) k' v = (k', v) :: t := by
        unfold insertKV
        rw [if_pos rfl]
      rw [e]
      simp only [List.map_cons, List.mem_cons]
      tauto
    · simp only [insertKV, if_neg h, List.map_cons, List.mem_cons]
      rw [mem_keys_insertKV t k v x]
      tauto

theorem keys_nodup_insertKV : ∀ (m : HoursMap) (k : Str) (v : TimePair),
    (m.map Prod.fst).Nodup → ((insertKV m k v).map Prod.fst).Nodup
  | [], k, v, _ => by
    simp only [insertKV, List.map_cons, List.map_nil]
    exact List.nodup_singleton k
  | (k', v') :: t, k, v, h => by
    rw [List.map_cons] at h
    rcases List.nodup_cons.mp h with ⟨hk', ht⟩
    by_cases h1 : k' = k
    · subst h1
      have e : insertKV ((k', v') :: t) k' v = (k', v) :: t := by
        unfold insertKV
        rw [if_pos rfl]
      rw [e, List.map_cons]
      exact List.nodup_cons.mpr ⟨hk', ht⟩
    · simp only [insertKV, if_neg h1, List.map_cons]
      refine List.nodup_cons.mpr ⟨?_, keys_nodup_insertKV t k v ht⟩
      rw [mem_keys_insertKV]
      rintro (hx | hx)
      · exact hk' hx
      · exact h1 hx

/-! ## Schedule fold characterization -/

theorem schedFold_lookup : ∀ (blocks : List (Str × Str))
    (acc : HoursMap × Option Nat × Option Nat) (n : Str),
    lookupKey (blocks.foldl schedStep acc).1 n =
      match ((blocks.filterMap parseBlock).filter (fun b => b.name = n)).getLast? with
      | some b => some (entryOf b).2
      | none => lookupKey acc.1 n
  | [], acc, n => rfl
  | blk :: rest, acc, n => by
    rcases h : parseBlock blk with _ | b
    · simp only [List.foldl_cons, List.filterMap_cons, h]
      have hstep : schedStep acc blk = acc := by simp [schedStep, h]
      rw [hstep]
      exact schedFold_lookup rest acc n
    · simp only [List.foldl_cons, List.filterMap_cons, h]
      have hstep : (schedStep acc blk).1 = insertKV acc.1 b.name (entryOf b).2 := by
        simp [schedStep, h, entryOf]
      have ih := schedFold_lookup rest (schedStep acc blk) n
      rw [ih, hstep]
      by_cases hn : b.name = n
      · rw [List.filter_cons_of_pos (by simp [hn])]
        rcases hLrest : (rest.filterMap parseBlock).filter (fun b2 => b2.name = n) with _ | ⟨x, L⟩
        · rw [hLrest]
          subst hn
          exact lookupKey_insertKV_self acc.1 b.name (entryOf b).2
        · rw [hLrest, List.getLast?_cons_cons,
            List.getLast?_eq_getLast_of_ne_nil (show x :: L ≠ [] by simp)]
      · rw [List.filter_cons_of_neg (by simp [hn])]
        rcases hlast : ((rest.filterMap parseBlock).filter (fun b2 => b2.name = n)).getLast? with
          _ | b2
        · rw [hlast]
          exact lookupKey_insertKV_other acc.1 b.name n (entryOf b).2 (fun he => hn he.symm)
        · rw [hlast]

theorem schedFold_nodup : ∀ (blocks : List (Str × Str))
    (acc : HoursMap × Option Nat × Option Nat),
    (acc.1.map Prod.fst).Nodup → ((blocks.foldl schedStep acc).1.map Prod.fst).Nodup
  | [], _, h => h
  | blk :: rest, acc, h => by
    rcases hp : parseBlock blk with _ | b
    · simp only [List.foldl_cons]
      have hstep : schedStep acc blk = acc := by simp [schedStep, hp]
      rw [hstep]
      exact schedFold_nodup rest acc h
    · simp only [List.foldl_cons]
      refine schedFold_nodup rest (schedStep acc blk) ?_
      have hstep : (schedStep acc blk).1 = insertKV acc.1 b.name (entryOf b).2 := by
        simp [schedStep, hp, entryOf]
      rw [hstep]
      exact keys_nodup_insertKV acc.1 b.name (entryOf b).2 h

/-- The running-minimum update of the schedule loop. -/
theorem minStep_foldl_some : ∀ (l : List Nat) (e : Nat),
    l.foldl (fun o m => some (match o with | none => m | some e2 => if m < e2 then m else e2))
      (some e) = some (l.foldl min e)
  | [], _ => rfl
  | m :: l', e => by
    simp only [List.foldl_cons]
    rw [minStep_foldl_some l' _]
    rw [show (if m < e then m else e) = min e m by split <;> omega]

theorem minStep_foldl_none (l : List Nat) :
    l.foldl (fun o m => some (match o with | none => m | some e2 => if m < e2 then m else e2))
      none = l.min? := by
  cases l with
  | nil => rfl
  | cons m l' =>
    simp only [List.foldl_cons, List.min?]
    exact minStep_foldl_some l' m

theorem maxStep_foldl_some : ∀ (l : List Nat) (e : Nat),
    l.foldl (fun o m => some (match o with | none => m | some e2 => if e2 < m then m else e2))
      (some e) = some (l.foldl max e)
  | [], _ => rfl
  | m :: l', e => by
    simp only [List.foldl_cons]
    rw [maxStep_foldl_some l' _]
    rw [show (if e < m then m else e) = max e m by split <;> omega]

theorem maxStep_foldl_none (l : List Nat) :
    l.foldl (fun o m => some (match o with | none => m | some e2 => if e2 < m then m else e2))
      none = l.max? := by
  cases l with
  | nil => rfl
  | cons m l' =>
    simp only [List.foldl_cons, List.max?]
    exact maxStep_foldl_some l' m

theorem schedFold_general : ∀ (blocks : List (Str × Str))
    (acc : HoursMap × Option Nat × Option Nat),
    (blocks.foldl schedStep acc).2.1 =
      ((blocks.filterMap parseBlock).map openMins).foldl
        (fun o m => some (match o with | none => m | some e2 => if m < e2 then m else e2))
        acc.2.1 ∧
    (blocks.foldl schedStep acc).2.2 =
      ((blocks.filterMap parseBlock).map closeMins).foldl
        (fun o m => some (match o with | none => m | some e2 => if e2 < m then m else e2))
        acc.2.2
  | [], acc => ⟨rfl, rfl⟩
  | blk :: rest, acc => by
    rcases h : parseBlock blk with _ | b
    · simp only [List.foldl_cons, List.filterMap_cons, h]
      have hstep : schedStep acc blk = acc := by simp [schedStep, h]
      rw [hstep]
      exact schedFold_general rest acc
    · simp only [List.foldl_cons, List.filterMap_cons, h, List.map_cons]
      have ih := schedFold_general rest (schedStep acc blk)
      refine ⟨?_, ?_⟩
      · rw [ih.1]
        congr 1
        simp [schedStep, h, openMins]
      · rw [ih.2]
        congr 1
        simp [schedStep, h, closeMins]

/-! ## Claims about the schedule extractor -/

/-- C9: when several blocks canonicalize to the same lift name, the
hours map binds that name to the time pair of the last such block (the
later entry silently overwrites the earlier one), and every canonical
name is bound exactly once. -/
theorem C9_later_block_overwrites (blocks : List (Str × Str)) (n : Str) :
    lookupKey (fetchLiftSchedule blocks).hours n =
      (((blocks.filterMap parseBlock).filter (fun b => b.name = n)).getLast?).map
        (fun b => (entryOf b).2) ∧
    ((fetchLiftSchedule blocks).hours.map Prod.fst).Nodup := by
  constructor
  · have h := schedFold_lookup blocks ([], none, none) n
    unfold fetchLiftSchedule
    dsimp only
    rw [h]
    rcases hq : ((blocks.filterMap parseBlock).filter (fun b => b.name = n)).getLast? with _ | b
    · rw [hq]
      rfl
    · rw [hq]
      rfl
  · have h := schedFold_nodup blocks ([], none, none) (by simp)
    unfold fetchLiftSchedule
    dsimp only
    exact h

/-- C5: the resort general window is the earliest open minute and the
latest close minute over all parsed blocks (rendered through `toTime`),
and a block list text as in the spec example, `"9.00 – 16.30"` first,
parses to open `"9:00"`, close `"16:30"` with the minutes zero-padded
and later ranges of the same list ignored. -/
theorem C5_schedule_window_and_parse :
    (∀ blocks : List (Str × Str),
      (fetchLiftSchedule blocks).generalOpen =
        (((blocks.filterMap parseBlock).map openMins).min?).map toTime ∧
      (fetchLiftSchedule blocks).generalClose =
        (((blocks.filterMap parseBlock).map closeMins).max?).map toTime) ∧
    fetchLiftSchedule [("Gondola Alpha".data, "9.00 – 16.30 13.00 – 17.00".data)] =
      ⟨[(['A', 'L', 'P', 'H', 'A'],
         TimePair.mk ['9', ':', '0', '0'] ['1', '6', ':', '3', '0'])],
        some ['9', ':', '0', '0'], some ['1', '6', ':', '3', '0']⟩ := by
  constructor
  · intro blocks
    have h := schedFold_general blocks ([], none, none)
    unfold fetchLiftSchedule
    dsimp only
    rw [h.1, h.2]
    rw [show (([], none, none) : HoursMap × Option Nat × Option Nat).2.1 = none from rfl,
      show (([], none, none) : HoursMap × Option Nat × Option Nat).2.2 = none from rfl]
    rw [minStep_foldl_none, maxStep_foldl_none]
    exact ⟨rfl, rfl⟩
  · decide

/-! ## Snowfall window lemmas -/

theorem foldl_congr_mem {α β : Type} :
    ∀ (l : List α) (f g : β → α → β) (init : β),
      (∀ acc a, a ∈ l → f acc a = g acc a) → l.foldl f init = l.foldl g init
  | [], _, _, _, _ => rfl
  | a :: l, f, g, init, h => by
    simp only [List.foldl_cons]
    rw [h init a (by simp)]
    exact foldl_congr_mem l f g _ (fun acc x hx => h acc x (by simp [hx]))

theorem snowFresh_eq (times : List Nat) (snows : List (Option ℚ)) (today : Nat) :
    snowFresh times snows today = specPastSum times snows today := by
  induction times using List.reverseRecOn with
  | nil => rfl
  | append_singleton ts t ih =>
    unfold snowFresh specPastSum at *
    rw [List.length_append, List.length_singleton, List.range_succ]
    have hbody : ∀ (acc : ℚ) (i : Nat), i ∈ List.range ts.length →
        (if (ts ++ [t]).getD i 0 < today then acc + dailyVal snows i else acc) =
        (if ts.getD i 0 < today then acc + dailyVal snows i else acc) := by
      intro acc i hi
      rw [List.getD_append _ _ _ _ (List.mem_range.mp hi)]
    have hpred : ∀ i ∈ List.range ts.length,
        (decide ((ts ++ [t]).getD i 0 < today)) = (decide (ts.getD i 0 < today)) := by
      intro i hi
      rw [List.getD_append _ _ _ _ (List.mem_range.mp hi)]
    have hlast : (ts ++ [t]).getD ts.length 0 = t := by
      rw [List.getD_append_right _ _ _ _ (Nat.le_refl _)]
      simp
    rw [List.foldl_append, foldl_congr_mem _ _ _ _ hbody, ih]
    rw [List.filter_append, List.filter_congr hpred]
    simp only [List.foldl_cons, List.foldl_nil, hlast]
    rw [List.filter_singleton, hlast]
    by_cases hf : t < today
    · rw [if_pos hf, decide_eq_true hf, cond_true]
      rw [List.map_append, List.sum_append]
      simp
    · rw [if_neg hf, decide_eq_false hf, cond_false]
      simp

theorem snowNext_eq (times : List Nat) (snows : List (Option ℚ)) (today : Nat) :
    snowNext times snows today =
      (firstThreeSum times snows today, allFutureSum times snows today,
        (futureIdx times today).length) := by
  induction times using List.reverseRecOn with
  | nil => rfl
  | append_singleton ts t ih =>
    unfold snowNext firstThreeSum allFutureSum futureIdx at *
    rw [List.length_append, List.length_singleton, List.range_succ]
    have hbody : ∀ (acc : ℚ × ℚ × Nat) (i : Nat), i ∈ List.range ts.length →
        (if today ≤ (ts ++ [t]).getD i 0 then
          (if acc.2.2 < 3 then acc.1 + dailyVal snows i else acc.1,
            acc.2.1 + dailyVal snows i, acc.2.2 + 1)
        else acc) =
        (if today ≤ ts.getD i 0 then
          (if acc.2.2 < 3 then acc.1 + dailyVal snows i else acc.1,
            acc.2.1 + dailyVal snows i, acc.2.2 + 1)
        else acc) := by
      intro acc i hi
      rw [List.getD_append _ _ _ _ (List.mem_range.mp hi)]
    have hpred : ∀ i ∈ List.range ts.length,
        (decide (today ≤ (ts ++ [t]).getD i 0)) = (decide (today ≤ ts.getD i 0)) := by
      intro i hi
      rw [List.getD_append _ _ _ _ (List.mem_range.mp hi)]
    have hlast : (ts ++ [t]).getD ts.length 0 = t := by
      rw [List.getD_append_right _ _ _ _ (Nat.le_refl _)]
      simp
    rw [List.foldl_append, foldl_congr_mem _ _ _ _ hbody, ih]
    rw [List.filter_append, List.filter_congr hpred]
    simp only [List.foldl_cons, List.foldl_nil, hlast]
    rw [List.filter_singleton, hlast]
    set F := (List.range ts.length).filter (fun i => today ≤ ts.getD i 0) with hF
    by_cases hf : today ≤ t
    · rw [if_pos hf, decide_eq_true hf, cond_true]
      by_cases h3 : F.length < 3
      · rw [if_pos h3]
        refine Prod.ext ?_ (Prod.ext ?_ ?_) <;> dsimp only
        · rw [List.take_append_eq_append_take,
            List.take_of_length_le (Nat.le_of_lt h3),
            List.take_of_length_le (by simp; omega)]
          rw [List.map_append, List.sum_append]
          simp
        · rw [List.map_append, List.sum_append]
          simp
        · simp
      · rw [if_neg h3]
        refine Prod.ext ?_ (Prod.ext ?_ ?_) <;> dsimp only
        · rw [List.take_append_eq_append_take, show 3 - F.length = 0 by omega]
          simp
        · rw [List.map_append, List.sum_append]
          simp
        · simp
    · rw [if_neg hf, decide_eq_false hf, cond_false]
      simp

/-! ## Claims about the snowfall windows -/

/-- C2 counterexample: on a series whose on-or-after-today dates are
`today`, `today+3` and `today+10` with amount 1 each, the code sums the
first three future entries (3) and all future entries (3), while the
claimed calendar windows `today…today+2` and `today…today+6` sum to 1
and 2 — so neither the near-term nor the extended sum matches the
claimed windows. -/
theorem C2_counterexample :
    snowWindows [10, 13, 20] [some 1, some 1, some 1] 10 = (0, 3, 3) ∧
    claimNearSum [10, 13, 20] [some 1, some 1, some 1] 10 = 1 ∧
    claimExtSum [10, 13, 20] [some 1, some 1, some 1] 10 = 2 ∧
    (snowWindows [10, 13, 20] [some 1, some 1, some 1] 10).2.1 ≠
      claimNearSum [10, 13, 20] [some 1, some 1, some 1] 10 ∧
    (snowWindows [10, 13, 20] [some 1, some 1, some 1] 10).2.2 ≠
      claimExtSum [10, 13, 20] [some 1, some 1, some 1] 10 := by
  have h1 : List.range 3 = [0, 1, 2] := rfl
  refine ⟨?_, ?_, ?_, ?_, ?_⟩ <;>
    norm_num [snowWindows, snowFresh, snowNext, dailyVal, claimNearSum, claimExtSum, h1,
      List.getD]

/-- C2 (amended): for every daily snowfall series and every value of
today the aggregator produces exactly three sums — the sum of amounts
on dates strictly before today, the sum of the first three amounts on
dates on or after today, and the sum of all amounts on dates on or
after today — with any missing daily amount treated as 0 before
summing.  (These equal the calendar windows today…today+2 and
today…today+6 only when the future part of the series is consecutive
daily and spans at most 7 days.) -/
theorem C2_snow_windows_amended (times : List Nat) (snows : List (Option ℚ)) (today : Nat) :
    snowWindows times snows today =
      (specPastSum times snows today, firstThreeSum times snows today,
        allFutureSum times snows today) := by
  unfold snowWindows
  rw [snowFresh_eq, snowNext_eq]

/-! ## Avalanche fold lemmas -/

theorem ratings_foldl_max : ∀ (rs : List DangerRating) (acc : Nat),
    rs.foldl (fun mx r => if mx < ratingLevel r then ratingLevel r else mx) acc =
      (rs.map ratingLevel).foldl max acc
  | [], _ => rfl
  | r :: rs, acc => by
    simp only [List.foldl_cons, List.map_cons]
    rw [show (if acc < ratingLevel r then ratingLevel r else acc) = max acc (ratingLevel r) by
      split <;> omega]
    exact ratings_foldl_max rs _

theorem bulletins_foldl_max : ∀ (bs : List Bulletin) (acc : Nat),
    bs.foldl
      (fun acc b =>
        b.dangerRatings.foldl (fun mx r => if mx < ratingLevel r then ratingLevel r else mx) acc)
      acc =
      ((bs.map (fun b => b.dangerRatings.map ratingLevel)).flatten).foldl max acc
  | [], _ => rfl
  | b :: bs, acc => by
    simp only [List.foldl_cons, List.map_cons, List.flatten_cons, List.foldl_append]
    rw [ratings_foldl_max]
    exact bulletins_foldl_max bs _

theorem maxDangerLevel_eq_foldl (doc : BulletinDoc) :
    maxDangerLevel doc = (levelsOf doc).foldl max 1 := by
  unfold maxDangerLevel levelsOf
  exact bulletins_foldl_max doc.bulletins 1

theorem foldl_max_ge_init (l : List Nat) (a : Nat) : a ≤ l.foldl max a := by
  induction l generalizing a with
  | nil => exact Nat.le_refl a
  | cons x l ih =>
    simp only [List.foldl_cons]
    exact Nat.le_trans (Nat.le_max_left a x) (ih _)

theorem foldl_max_ge_mem (l : List Nat) (a : Nat) : ∀ x ∈ l, x ≤ l.foldl max a := by
  induction l generalizing a with
  | nil => intro x hx; exact absurd hx (List.not_mem_nil x)
  | cons y l ih =>
    intro x hx
    simp only [List.foldl_cons]
    rcases List.mem_cons.mp hx with h | h
    · subst h
      exact Nat.le_trans (Nat.le_max_right a x) (foldl_max_ge_init l _)
    · exact ih _ x h

theorem foldl_max_le (l : List Nat) (a b : Nat) (ha : a ≤ b) (hl : ∀ x ∈ l, x ≤ b) :
    l.foldl max a ≤ b := by
  induction l generalizing a with
  | nil => exact ha
  | cons x l ih =>
    simp only [List.foldl_cons]
    exact ih _ (Nat.max_le.mpr ⟨ha, hl x (by simp)⟩) (fun y hy => hl y (by simp [hy]))

theorem foldl_max_mem_cons (l : List Nat) (a : Nat) : l.foldl max a = a ∨ l.foldl max a ∈ l := by
  induction l generalizing a with
  | nil => exact Or.inl rfl
  | cons x l ih =>
    simp only [List.foldl_cons]
    rcases ih (max a x) with h | h
    · rcases Nat.le_total a x with hax | hax
      · right
        rw [h, max_eq_right hax]
        simp
      · left
        rw [h, max_eq_left hax]
    · exact Or.inr (List.mem_cons_of_mem x h)

theorem dangerMapF_bounds {s : Str} {n : Nat} (h : dangerMapF s = some n) : 1 ≤ n ∧ n ≤ 5 := by
  unfold dangerMapF at h
  split at h
  · cases h; omega
  · split at h
    · cases h; omega
    · split at h
      · cases h; omega
      · split at h
        · cases h; omega
        · split at h
          · cases h; omega
          · cases h

theorem ratingLevel_bounds (r : DangerRating) : 1 ≤ ratingLevel r ∧ ratingLevel r ≤ 5 := by
  unfold ratingLevel
  rcases h : dangerMapF r.mainValue with _ | n
  · simp
  · simpa using dangerMapF_bounds h

theorem levelsOf_bounds (doc : BulletinDoc) : ∀ x ∈ levelsOf doc, 1 ≤ x ∧ x ≤ 5 := by
  intro x hx
  unfold levelsOf at hx
  rcases List.mem_flatten.mp hx with ⟨l, hl, hxl⟩
  rcases List.mem_map.mp hl with ⟨b, _, rfl⟩
  rcases List.mem_map.mp hxl with ⟨r, _, rfl⟩
  exact ratingLevel_bounds r

/-! ## Claims about the avalanche aggregation and the run -/

/-- C3 counterexample: a failed fetch does not yield a level-1 "Low"
assessment; the failure is caught and `null` (no avalanche info) is
returned, so no level at all is reported. -/
theorem C3_counterexample :
    fetchAvalancheData (Except.error ['x']) = none ∧
    (fetchAvalancheData (Except.error ['x'])).map Assessment.level ≠ some 1 := by
  refine ⟨rfl, ?_⟩
  rw [show fetchAvalancheData (Except.error ['x']) = none from rfl]
  simp

/-- C3 (amended): for every bulletin document the aggregated danger
level is the maximum of the mapped sub-region levels (categories
low…very_high map to 1…5, unknown categories to 1), the level is always
in [1,5], a document with no ratings yields level 1 with label "Low",
while a failed fetch yields no avalanche info (`none`) — and an
avalanche fetch failure never fails the whole run: the run still
completes and writes its outputs, with every resort carrying no
avalanche info. -/
theorem C3_avalanche_amended :
    (∀ doc : BulletinDoc, 1 ≤ maxDangerLevel doc ∧ maxDangerLevel doc ≤ 5) ∧
    (∀ doc : BulletinDoc, levelsOf doc ≠ [] →
      maxDangerLevel doc ∈ levelsOf doc ∧ ∀ l ∈ levelsOf doc, l ≤ maxDangerLevel doc) ∧
    (∀ doc : BulletinDoc, levelsOf doc = [] →
      (fetchAvalancheData (Except.ok doc)).map Assessment.level = some 1 ∧
      (fetchAvalancheData (Except.ok doc)).bind Assessment.label = some "Low".data) ∧
    (∀ e : Str, fetchAvalancheData (Except.error e) = none) ∧
    (∀ (resorts : List ResortFetch) (e ts : Str) (fs : FS),
      mainModel (Except.ok resorts) (Except.error e) ts fs true true =
        RunOutcome.ok
          ⟨some (ts, resorts.map (aggregateResort none)),
            some (ts, resorts.map (aggregateResort none))⟩) := by
  refine ⟨?_, ?_, ?_, ?_, ?_⟩
  · intro doc
    rw [maxDangerLevel_eq_foldl]
    constructor
    · exact foldl_max_ge_init _ 1
    · exact foldl_max_le _ 1 5 (by omega) (fun x hx => (levelsOf_bounds doc x hx).2)
  · intro doc hne
    rw [maxDangerLevel_eq_foldl]
    refine ⟨?_, foldl_max_ge_mem _ 1⟩
    rcases foldl_max_mem_cons (levelsOf doc) 1 with h | h
    · rcases hl : levelsOf doc with _ | ⟨x, l⟩
      · exact absurd hl hne
      · have hx2 : 1 ≤ x := (levelsOf_bounds doc x (by rw [hl]; simp)).1
        have hx1 : x ≤ (levelsOf doc).foldl max 1 :=
          foldl_max_ge_mem _ 1 x (by rw [hl]; simp)
        rw [h] at hx1
        have hx : x = 1 := Nat.le_antisymm hx1 hx2
        rw [hl] at h
        rw [h, ← hx]
        simp
    · exact h
  · intro doc hempty
    have h1 : maxDangerLevel doc = 1 := by
      rw [maxDangerLevel_eq_foldl, hempty]
      rfl
    unfold fetchAvalancheData
    dsimp only
    rw [h1]
    exact ⟨rfl, rfl⟩
  · intro e
    rfl
  · intro resorts e ts fs
    rfl

/-- C3 amended witness: a document with one "considerable" rating has
aggregated level 3, which is the maximum (and a member) of its mapped
levels. -/
theorem C3_avalanche_amended_witness :
    maxDangerLevel ⟨[⟨[⟨"considerable".data⟩], none⟩]⟩ ∈
      levelsOf ⟨[⟨[⟨"considerable".data⟩], none⟩]⟩ ∧
    (∀ l ∈ levelsOf ⟨[⟨[⟨"considerable".data⟩], none⟩]⟩,
      l ≤ maxDangerLevel ⟨[⟨[⟨"considerable".data⟩], none⟩]⟩) ∧
    maxDangerLevel ⟨[⟨[⟨"considerable".data⟩], none⟩]⟩ = 3 := by
  have h := C3_avalanche_amended.2.1 ⟨[⟨[⟨"considerable".data⟩], none⟩]⟩ (by decide)
  exact ⟨h.1, h.2, by decide⟩

/-- C4 counterexample: a run in which the first output write succeeds
and the second throws exits non-zero, yet the previously published
`index.html` has already been overwritten — the previous snapshot is
not left untouched. -/
theorem C4_counterexample :
    mainModel (Except.ok []) (Except.error ['e']) ['n']
      ⟨some (['o'], []), some (['o'], [])⟩ true false =
      RunOutcome.exitNonzero ⟨some (['n'], []), some (['o'], [])⟩ ∧
    (some ((['n'] : Str), ([] : List ResortBundle)) ≠
      some ((['o'] : Str), ([] : List ResortBundle))) := by
  exact ⟨rfl, by decide⟩

/-- C4 (amended): the run exits non-zero whenever the configuration
fails to parse or either output write throws, and completes otherwise;
the previously published files are untouched only when the failure
happens before the first write (configuration failure or a throwing
first write).  When the first write succeeds and the second throws, the
process still exits non-zero but `index.html` has already been
replaced — the snapshot replacement is sequential, not atomic. -/
theorem C4_run_not_atomic (avRaw : Except Str BulletinDoc) (ts : Str) (fs : FS)
    (w2 : Bool) :
    (∀ e : Str, ∀ w1 : Bool,
      mainModel (Except.error e) avRaw ts fs w1 w2 = RunOutcome.exitNonzero fs) ∧
    (∀ resorts : List ResortFetch,
      mainModel (Except.ok resorts) avRaw ts fs false w2 = RunOutcome.exitNonzero fs) ∧
    (∀ resorts : List ResortFetch,
      mainModel (Except.ok resorts) avRaw ts fs true true =
        RunOutcome.ok
          ⟨some (ts, resorts.map (aggregateResort (fetchAvalancheData avRaw))),
            some (ts, resorts.map (aggregateResort (fetchAvalancheData avRaw)))⟩) ∧
    (∀ resorts : List ResortFetch,
      mainModel (Except.ok resorts) avRaw ts fs true false =
        RunOutcome.exitNonzero
          ⟨some (ts, resorts.map (aggregateResort (fetchAvalancheData avRaw))),
            fs.dataJson⟩) := by
  refine ⟨fun e w1 => rfl, fun resorts => rfl, fun resorts => rfl, fun resorts => rfl⟩

/-- C4 amended witness: the four branches at a concrete input. -/
theorem C4_run_not_atomic_witness :
    mainModel (Except.error ['z']) (Except.error ['e']) ['n']
      ⟨some (['o'], []), some (['o'], [])⟩ true false =
      RunOutcome.exitNonzero ⟨some (['o'], []), some (['o'], [])⟩ ∧
    mainModel (Except.ok []) (Except.error ['e']) ['n']
      ⟨some (['o'], []), some (['o'], [])⟩ true true =
      RunOutcome.ok ⟨some (['n'], []), some (['n'], [])⟩ := by
  have h := C4_run_not_atomic (Except.error ['e']) ['n'] ⟨some (['o'], []), some (['o'], [])⟩
  exact ⟨(h false).1 ['z'] true, by simpa using (h true).2.2.1 []⟩

end SnowMonitor
